import Mathlib

/-!
Verification of the Wochenzettel timesheet tracker (src/index.tsx).

This file gives a shallow embedding of the core logic of the application:
time arithmetic (`calculateHours`, `formatHours`), the entry data model,
the summary/overtime aggregation engine (`summaryMetrics`), the display
sort order (`sortedEntries`), the add/update validation
(`handleSubmit`, `handleSaveChanges`) and the JSON import contract
(`handleFileSelected`).

Modelling conventions:
* JavaScript numbers are modelled by `ℚ` (exact arithmetic; the code
  performs only additions, subtractions and divisions by constants).
* `HH:MM` time-of-day strings and `YYYY-MM-DD` date strings are kept as
  `String`s, with explicit parsers; an unparseable non-empty time string
  (which in JavaScript would poison the computation with `NaN`) is
  modelled as contributing `0`.
* JavaScript `Set`/`Map` objects keyed by date strings are modelled by a
  `Finset String` of keys together with a total function `String → ℚ`
  defaulting to `0`, and iteration over them by `Finset.sum` (sums in
  `ℚ` do not depend on iteration order).
* `Array.prototype.sort(cmp)` is modelled by the stable
  `List.insertionSort` with the relation `cmp a b ≤ 0`.
-/

namespace Wochenzettel

/-- Strip leading and trailing whitespace from a character list
(the effect of `String.prototype.trim`). -/
def trimChars (l : List Char) : List Char :=
  ((l.dropWhile Char.isWhitespace).reverse.dropWhile Char.isWhitespace).reverse

/-- Normalisation applied throughout the source to the free-text
`location` field: `location.trim().toLowerCase()` (ASCII case mapping),
implemented on the underlying character list. -/
def normLoc (s : String) : String :=
  String.mk ((trimChars s.data).map Char.toLower)

/-- Lexicographic (code-point) strict comparison of character lists,
the order underlying `String.prototype.localeCompare` on zero-padded
`HH:MM` strings and plain `<` on string data. -/
def lexLt : List Char → List Char → Bool
  | [], [] => false
  | [], _ :: _ => true
  | _ :: _, [] => false
  | a :: as, b :: bs =>
    if a < b then true else if b < a then false else lexLt as bs

/-- Strict lexicographic comparison of strings. -/
def strLt (a b : String) : Bool := lexLt a.data b.data

/-- Whether the first list is a prefix of the second. -/
def isPrefixB : List Char → List Char → Bool
  | [], _ => true
  | _ :: _, [] => false
  | a :: as, b :: bs => a == b && isPrefixB as bs

/-- The test `s.startsWith(p)` used for the `YYYY-MM` month window. -/
def strStartsWith (s p : String) : Bool := isPrefixB p.data s.data

/-- Parse a zero-padded `HH:MM` string into minutes since midnight.
Models the successful case of `new Date(`1970-01-01T${s}:00`)`. -/
def parseHHMM (s : String) : Option ℤ :=
  match s.toList with
  | [h1, h2, ':', m1, m2] =>
    if h1.isDigit && h2.isDigit && m1.isDigit && m2.isDigit then
      let hh : ℕ := (h1.toNat - 48) * 10 + (h2.toNat - 48)
      let mm : ℕ := (m1.toNat - 48) * 10 + (m2.toNat - 48)
      if hh ≤ 23 && mm ≤ 59 then some ((hh : ℤ) * 60 + mm) else none
    else none
  | _ => none

/-- Embedding of `calculateHours` (src/index.tsx lines 38-46): returns `0`
if either argument is the empty string, `0` when `end <= start`, and
otherwise the elapsed time in fractional hours
(`(endMs - startMs) / 3600000 = (endMin - startMin) / 60`), floored at
`0` by `Math.max`.  A non-empty string that does not parse as `HH:MM`
(JavaScript `NaN`) is modelled as `0`. -/
def calculateHours (start «end» : String) : ℚ :=
  if start = "" ∨ «end» = "" then 0
  else
    match parseHHMM start, parseHHMM «end» with
    | some s, some e =>
      if e ≤ s then 0 else max 0 (((e - s : ℤ) : ℚ) / 60)
    | _, _ => 0

/-- JavaScript `Math.round`: rounds half toward positive infinity,
`Math.round x = ⌊x + 1/2⌋`. -/
def jsRound (x : ℚ) : ℤ := ⌊x + 1/2⌋

/-- Insert the German thousands separator into a reversed digit list
(a dot after every group of three digits, counted from the right). -/
def group3Aux : List Char → List Char
  | c1 :: c2 :: c3 :: c4 :: rest => c1 :: c2 :: c3 :: '.' :: group3Aux (c4 :: rest)
  | l => l

/-- German (`de-DE`) digit grouping of a decimal numeral string. -/
def group3 (s : String) : String :=
  String.mk (group3Aux s.toList.reverse).reverse

/-- Zero-pad a natural number below 100 to two digits. -/
def padNat2 (n : ℕ) : String :=
  if n < 10 then "0" ++ toString n else toString n

/-- Model of `new Intl.NumberFormat('de-DE', { minimumFractionDigits: 2,
maximumFractionDigits: 2 }).format q`: round to two decimal places with
the default `halfExpand` (half away from zero) rounding, then render
with comma decimal separator and dotted digit grouping. -/
def intlDe2 (q : ℚ) : String :=
  let c : ℤ := if q < 0 then -⌊-q * 100 + 1/2⌋ else ⌊q * 100 + 1/2⌋
  (if c < 0 then "-" else "")
    ++ group3 (toString (c.natAbs / 100)) ++ "," ++ padNat2 (c.natAbs % 100)

/-- Embedding of `formatHours` (src/index.tsx lines 48-59):
`roundedHours = Math.round(hours * 100) / 100`, German two-decimal
rendering of its absolute value, prefixed with `-` when
`roundedHours < 0` and `+` otherwise, joined by a space. -/
def formatHours (hours : ℚ) : String :=
  let roundedHours : ℚ := (jsRound (hours * 100) : ℚ) / 100
  let formattedNumber := intlDe2 |roundedHours|
  let sign := if roundedHours < 0 then "-" else "+"
  sign ++ " " ++ formattedNumber

/-- The derived semantic kind of an entry (spec section 4.2); the source
code inlines these comparisons on `location.trim().toLowerCase()`. -/
inductive Kind where
  | vacation | sick | onCall | pause | regular
deriving DecidableEq

/-- Classify a location string into its `Kind`. -/
def kindOf (location : String) : Kind :=
  let l := normLoc location
  if l = "urlaub" then .vacation
  else if l = "krank" then .sick
  else if l = "bereitschaft" then .onCall
  else if l = "pause" then .pause
  else .regular

/-- A sub-interval of work nested under an on-call entry. -/
structure Deployment where
  id : String
  location : String
  startTime : String
  endTime : String
deriving DecidableEq

/-- One logged day-record.  `isChildSick` and `deployments` are optional
fields (`undefined` is modelled as `none`). -/
structure Entry where
  id : String
  date : String
  location : String
  startTime : String
  endTime : String
  isChildSick : Option Bool := none
  deployments : Option (List Deployment) := none
deriving DecidableEq

/-- The six derived summary figures. -/
structure SummaryMetrics where
  totalOvertime : ℚ
  currentMonthOvertime : ℚ
  totalWorkHours : ℚ
  vacationDays : ℕ
  sickDays : ℕ
  onCallDays : ℕ
deriving DecidableEq

attribute [ext] SummaryMetrics

/-- One iteration of the precedence pass of `summaryMetrics`
(src/index.tsx lines 489-497): record the entry's date in the vacation
set for `urlaub` entries, else in the sick set for `krank` entries. -/
def pass1step (p : Finset String × Finset String) (e : Entry) :
    Finset String × Finset String :=
  let location := normLoc e.location
  if location = "urlaub" then (insert e.date p.1, p.2)
  else if location = "krank" then (p.1, insert e.date p.2)
  else p

/-- Precedence pass of `summaryMetrics` (src/index.tsx lines 488-497):
collect the set of dates carrying a vacation entry and the set of dates
carrying a sick entry. -/
def pass1 (entries : List Entry) : Finset String × Finset String :=
  entries.foldl pass1step (∅, ∅)

/-- Accumulator state of the hour-accumulation pass: the on-call day
set, and the two by-day hour maps (modelled as key set plus total
function defaulting to `0`). -/
structure Acc where
  onCallDays : Finset String
  workKeys : Finset String
  workHours : String → ℚ
  depKeys : Finset String
  depHours : String → ℚ

/-- Point update of a by-day hour map:
`map.set(d, (map.get(d) || 0) + h)`. -/
def addHours (f : String → ℚ) (d : String) (h : ℚ) : String → ℚ :=
  fun x => if x = d then f x + h else f x

/-- The `entry.deployments.forEach` loop: each deployment adds its
elapsed hours under the parent entry's date. -/
def depFold (date : String) (deps : List Deployment)
    (p : Finset String × (String → ℚ)) : Finset String × (String → ℚ) :=
  deps.foldl
    (fun p dep =>
      (insert date p.1, addHours p.2 date (calculateHours dep.startTime dep.endTime)))
    p

/-- One iteration of the hour-accumulation pass
(src/index.tsx lines 500-523): skip entries on excluded dates, record
on-call days and deployment hours for `bereitschaft` entries, ignore
`pause` entries, and accumulate positive elapsed hours of all other
entries into the regular by-day map. -/
def pass2step (excl : String → Bool) (acc : Acc) (e : Entry) : Acc :=
  if excl e.date then acc
  else
    let location := normLoc e.location
    if location = "bereitschaft" then
      let acc1 := { acc with onCallDays := insert e.date acc.onCallDays }
      match e.deployments with
      | some deps =>
        let p := depFold e.date deps (acc1.depKeys, acc1.depHours)
        { acc1 with depKeys := p.1, depHours := p.2 }
      | none => acc1
    else if location ≠ "pause" then
      let calculated := calculateHours e.startTime e.endTime
      if 0 < calculated then
        { acc with
          workKeys := insert e.date acc.workKeys
          workHours := addHours acc.workHours e.date calculated }
      else acc
    else acc

/-- The hour-accumulation pass over the whole entry collection. -/
def pass2 (excl : String → Bool) (entries : List Entry) : Acc :=
  entries.foldl (pass2step excl) ⟨∅, ∅, fun _ => 0, ∅, fun _ => 0⟩

/-- The exclusion test `vacationDays.has(d) || sickDays.has(d)`. -/
def exclF (entries : List Entry) : String → Bool :=
  fun d => decide (d ∈ (pass1 entries).1 ∨ d ∈ (pass1 entries).2)

/-- Embedding of `summaryMetrics` (src/index.tsx lines 481-557).
`currentMonthStr` is the `YYYY-MM` prefix of "now", injected as a
parameter (in the source it is computed from `new Date()`). -/
def summaryMetrics (entries : List Entry) (baseOvertime : ℚ)
    (currentMonthStr : String) : SummaryMetrics :=
  let vac := (pass1 entries).1
  let sick := (pass1 entries).2
  let acc := pass2 (exclF entries) entries
  let calculatedOvertime :=
    (∑ d ∈ acc.workKeys, (acc.workHours d - 8)) + ∑ d ∈ acc.depKeys, acc.depHours d
  let currentMonthOvertime :=
    (∑ d ∈ acc.workKeys.filter (fun d => strStartsWith d currentMonthStr = true),
        (acc.workHours d - 8))
      + ∑ d ∈ acc.depKeys.filter (fun d => strStartsWith d currentMonthStr = true),
          acc.depHours d
  let totalWorkHours :=
    (∑ d ∈ acc.workKeys, acc.workHours d) + ∑ d ∈ acc.depKeys, acc.depHours d
  { totalOvertime := calculatedOvertime + baseOvertime
    currentMonthOvertime := currentMonthOvertime
    totalWorkHours := totalWorkHours
    vacationDays := vac.card
    sickDays := sick.card
    onCallDays := acc.onCallDays.card }

/-- Days since 1970-01-01 of the civil date `y-m-d` (the standard
days-from-civil algorithm used by `Date.UTC`-style parsing). -/
def daysFromCivil (y m d : ℤ) : ℤ :=
  let y' := if m ≤ 2 then y - 1 else y
  let era := (if 0 ≤ y' then y' else y' - 399) / 400
  let yoe := y' - era * 400
  let doy := (153 * (if 2 < m then m - 3 else m + 9) + 2) / 5 + d - 1
  let doe := yoe * 365 + yoe / 4 - yoe / 100 + doy
  era * 146097 + doe - 719468

/-- Parse a `YYYY-MM-DD` date string into `new Date(s).getTime()`,
milliseconds since the epoch; `none` models an invalid date (`NaN`). -/
def parseDate (s : String) : Option ℤ :=
  match s.toList with
  | [y1, y2, y3, y4, '-', m1, m2, '-', d1, d2] =>
    if y1.isDigit && y2.isDigit && y3.isDigit && y4.isDigit
        && m1.isDigit && m2.isDigit && d1.isDigit && d2.isDigit then
      let y : ℕ :=
        ((y1.toNat - 48) * 10 + (y2.toNat - 48)) * 100
          + (y3.toNat - 48) * 10 + (y4.toNat - 48)
      let m : ℕ := (m1.toNat - 48) * 10 + (m2.toNat - 48)
      let d : ℕ := (d1.toNat - 48) * 10 + (d2.toNat - 48)
      if 1 ≤ m && m ≤ 12 && 1 ≤ d && d ≤ 31 then
        some (86400000 * daysFromCivil (y : ℤ) (m : ℤ) (d : ℤ))
      else none
    else none
  | _ => none

/-- Sign of `a.localeCompare(b)` on zero-padded `HH:MM` strings
(lexicographic string comparison). -/
def strCmpInt (a b : String) : ℤ :=
  if strLt a b then -1 else if strLt b a then 1 else 0

/-- Whether an entry is a `bereitschaft` (on-call) entry, the test used
by the display comparator. -/
def isOnCallE (e : Entry) : Prop := normLoc e.location = "bereitschaft"

instance (e : Entry) : Decidable (isOnCallE e) :=
  inferInstanceAs (Decidable (_ = _))

/-- The display comparator of `sortedEntries`
(src/index.tsx lines 455-479): `bereitschaft` entries after all others;
otherwise by `new Date(date).getTime()` difference when the timestamps
differ (a comparison involving an invalid date returns `NaN`, which the
sort treats as `0`); otherwise by `startTime.localeCompare` when both
start times are non-empty; otherwise `0`. -/
def dateTimeCmp (a b : Entry) : ℤ :=
  match parseDate a.date, parseDate b.date with
  | some dateA, some dateB =>
    if dateA ≠ dateB then dateA - dateB
    else if a.startTime ≠ "" ∧ b.startTime ≠ "" then
      strCmpInt a.startTime b.startTime
    else 0
  | _, _ => 0

def entryCmp (a b : Entry) : ℤ :=
  if isOnCallE a ∧ ¬ isOnCallE b then 1
  else if ¬ isOnCallE a ∧ isOnCallE b then -1
  else dateTimeCmp a b

/-- The display order relation: `a` may precede `b` when the comparator
is non-positive. -/
def leE (a b : Entry) : Prop := entryCmp a b ≤ 0

instance : DecidableRel leE :=
  fun a b => inferInstanceAs (Decidable (entryCmp a b ≤ 0))

/-- Embedding of `sortedEntries`: the entry collection sorted by the
display comparator with a stable sort
(`[...entries].sort((a, b) => ...)`). -/
def sortedEntries (entries : List Entry) : List Entry :=
  entries.insertionSort leE

/-- The state of the new-entry (or edit) form. -/
structure EntryForm where
  id : String
  date : String
  location : String
  startTime : String
  endTime : String
  isChildSick : Bool
  hasDeployments : Bool
  deployments : List Deployment
deriving DecidableEq

/-- The `isSpecialEntry` test of the form components
(src/index.tsx lines 204-205 and 652-653). -/
def isSpecialLoc (location : String) : Prop :=
  normLoc location = "urlaub" ∨ normLoc location = "krank"
    ∨ normLoc location = "bereitschaft"

instance (s : String) : Decidable (isSpecialLoc s) :=
  inferInstanceAs (Decidable (_ ∨ _ ∨ _))

/-- The entry object literal built by both `handleSubmit`
(src/index.tsx lines 670-678) and `handleSaveChanges` (lines 222-230):
start and end times are blanked for special kinds, `isChildSick` is kept
only for `krank`, `deployments` only for `bereitschaft` with the
deployments checkbox set. -/
def mkEntryFromForm (id : String) (f : EntryForm) : Entry :=
  { id := id
    date := f.date
    location := f.location
    startTime := if isSpecialLoc f.location then "" else f.startTime
    endTime := if isSpecialLoc f.location then "" else f.endTime
    isChildSick := if normLoc f.location = "krank" then some f.isChildSick else none
    deployments :=
      if normLoc f.location = "bereitschaft" ∧ f.hasDeployments then
        some f.deployments
      else none }

/-- Embedding of `handleSubmit` (src/index.tsx lines 655-689): validate,
then prepend the new entry.  `.error` models an early return with an
inline error message and no state change. -/
def handleSubmit (id : String) (f : EntryForm) (entries : List Entry) :
    Except String (List Entry) :=
  if f.date = "" ∨ f.location = "" then
    .error "Datum und Ort/Auftrag sind Pflichtfelder."
  else if ¬ isSpecialLoc f.location
      ∧ (f.startTime = "" ∨ f.endTime = ""
          ∨ calculateHours f.startTime f.endTime ≤ 0) then
    .error "Bei regulären Einträgen sind eine gültige Start- und Endzeit erforderlich, die eine positive Arbeitszeit ergeben."
  else .ok (mkEntryFromForm id f :: entries)

/-- Embedding of `handleSaveChanges` (src/index.tsx lines 207-233)
combined with `handleUpdateEntry` (lines 744-747): same validation as
`handleSubmit`, then replace the entry whose id matches `f.id`. -/
def handleSaveChanges (f : EntryForm) (entries : List Entry) :
    Except String (List Entry) :=
  if f.date = "" ∨ f.location = "" then
    .error "Datum und Ort/Auftrag sind Pflichtfelder."
  else if ¬ isSpecialLoc f.location
      ∧ (f.startTime = "" ∨ f.endTime = ""
          ∨ calculateHours f.startTime f.endTime ≤ 0) then
    .error "Bei regulären Einträgen sind eine gültige Start- und Endzeit erforderlich, die eine positive Arbeitszeit ergeben."
  else
    .ok (entries.map fun e =>
      if e.id = f.id then mkEntryFromForm f.id f else e)

/-- A parsed JSON value (the result of `JSON.parse`). -/
inductive JValue where
  | null
  | bool (b : Bool)
  | num (q : ℚ)
  | str (s : String)
  | arr (elems : List JValue)
  | obj (fields : List (String × JValue))

/-- JavaScript property access `v[k]`: `none` models `undefined`. -/
def jGetField : JValue → String → Option JValue
  | .obj fields, k => fields.lookup k
  | _, _ => none

/-- JavaScript truthiness of a JSON value. -/
def jTruthy : JValue → Bool
  | .null => false
  | .bool b => b
  | .num q => decide (q ≠ 0)
  | .str s => decide (s ≠ "")
  | .arr _ => true
  | .obj _ => true

/-- The four pieces of application state replaced by a file import.
Entries and saved locations are loaded as raw JSON values, exactly as
the source assigns `data.entries` / `data.savedLocations` unchecked. -/
structure AppDoc where
  entries : List JValue
  employeeName : String
  savedLocations : List JValue
  baseOvertime : ℚ

/-- Embedding of the import logic of `handleFileSelected`
(src/index.tsx lines 941-950): accept only a truthy value whose
`entries` field is an array; then load the entries as given and default
`employeeName`, `savedLocations` and `baseOvertime` when absent or
wrong-typed.  Any other input (including a thrown parse error) leaves
the current state untouched. -/
def handleFileSelected (st : AppDoc) (data : JValue) : AppDoc :=
  if jTruthy data then
    match jGetField data "entries" with
    | some (.arr es) =>
      { entries := es
        employeeName :=
          match jGetField data "employeeName" with
          | some (.str s) => s
          | _ => ""
        savedLocations :=
          match jGetField data "savedLocations" with
          | some (.arr l) => l
          | _ => []
        baseOvertime :=
          match jGetField data "baseOvertime" with
          | some (.num q) => q
          | _ => 0 }
    | _ => st
  else st

/-! ### Specification-side definitions

The definitions below follow the wording of the specification claims
(kind-based classification, explicit date sets, per-day and per-entry
sums); the theorems relate them to the code embedding above. -/

/-- Dates carrying at least one entry classified Vacation. -/
def vacDates (entries : List Entry) : Finset String :=
  ((entries.filter fun e => decide (kindOf e.location = Kind.vacation)).map
    (·.date)).toFinset

/-- Dates carrying at least one entry classified Sick. -/
def sickDates (entries : List Entry) : Finset String :=
  ((entries.filter fun e => decide (kindOf e.location = Kind.sick)).map
    (·.date)).toFinset

/-- A date is excluded from hour computation when it is flagged Vacation
or Sick. -/
def excludedB (entries : List Entry) (d : String) : Bool :=
  decide (d ∈ vacDates entries ∨ d ∈ sickDates entries)

/-- The condition under which the hour-accumulation pass credits an
entry to the regular by-day map: not on an excluded date, not an on-call
entry, not a pause entry. -/
def regHit (excl : String → Bool) (e : Entry) : Prop :=
  excl e.date = false ∧ normLoc e.location ≠ "bereitschaft"
    ∧ normLoc e.location ≠ "pause"

instance (excl : String → Bool) (e : Entry) : Decidable (regHit excl e) :=
  inferInstanceAs (Decidable (_ ∧ _ ∧ _))

/-- The condition under which the hour-accumulation pass treats an entry
as an on-call entry: not on an excluded date and classified on-call. -/
def onCallHit (excl : String → Bool) (e : Entry) : Prop :=
  excl e.date = false ∧ normLoc e.location = "bereitschaft"

instance (excl : String → Bool) (e : Entry) : Decidable (onCallHit excl e) :=
  inferInstanceAs (Decidable (_ ∧ _))

/-- Total elapsed deployment hours attached to an entry. -/
def depsTotal (e : Entry) : ℚ :=
  ((e.deployments.getD []).map fun dp =>
    calculateHours dp.startTime dp.endTime).sum

/-- Total regular hours the pass accumulates under date `d`. -/
def regSum (excl : String → Bool) (entries : List Entry) (d : String) : ℚ :=
  (entries.map fun e =>
    if regHit excl e ∧ e.date = d ∧ 0 < calculateHours e.startTime e.endTime
    then calculateHours e.startTime e.endTime else 0).sum

/-- The set of keys of the regular by-day map: dates of non-excluded
non-on-call non-pause entries with positive elapsed hours. -/
def regDaysF (excl : String → Bool) (entries : List Entry) : Finset String :=
  ((entries.filter fun e =>
      decide (regHit excl e ∧ 0 < calculateHours e.startTime e.endTime)).map
    (·.date)).toFinset

/-- Total deployment hours the pass accumulates under date `d`. -/
def depSum (excl : String → Bool) (entries : List Entry) (d : String) : ℚ :=
  (entries.map fun e =>
    if onCallHit excl e ∧ e.date = d then depsTotal e else 0).sum

/-- The set of keys of the deployment by-day map: dates of non-excluded
on-call entries carrying a non-empty deployment list. -/
def depDaysF (excl : String → Bool) (entries : List Entry) : Finset String :=
  ((entries.filter fun e =>
      decide (onCallHit excl e ∧ e.deployments.getD [] ≠ [])).map
    (·.date)).toFinset

/-- The on-call day set accumulated by the pass: dates of non-excluded
on-call entries. -/
def onCallDaysF (excl : String → Bool) (entries : List Entry) : Finset String :=
  ((entries.filter fun e => decide (onCallHit excl e)).map (·.date)).toFinset

/-! ### Classifier bridge lemmas -/

theorem kindOf_eq_vacation {location : String} :
    kindOf location = Kind.vacation ↔ normLoc location = "urlaub" := by
  simp only [kindOf]
  split_ifs with h1 h2 h3 h4 <;> simp_all

theorem kindOf_eq_sick {location : String} :
    kindOf location = Kind.sick ↔ normLoc location = "krank" := by
  simp only [kindOf]
  split_ifs with h1 h2 h3 h4 <;> simp_all

theorem kindOf_eq_onCall {location : String} :
    kindOf location = Kind.onCall ↔ normLoc location = "bereitschaft" := by
  simp only [kindOf]
  split_ifs with h1 h2 h3 h4 <;> simp_all

theorem kindOf_eq_pause {location : String} :
    kindOf location = Kind.pause ↔ normLoc location = "pause" := by
  simp only [kindOf]
  split_ifs with h1 h2 h3 h4 <;> simp_all

theorem kindOf_eq_regular {location : String} :
    kindOf location = Kind.regular ↔
      normLoc location ≠ "urlaub" ∧ normLoc location ≠ "krank"
        ∧ normLoc location ≠ "bereitschaft" ∧ normLoc location ≠ "pause" := by
  simp only [kindOf]
  split_ifs with h1 h2 h3 h4 <;> simp_all

/-! ### Characterisation of the precedence pass -/

theorem pass1step_fst (p : Finset String × Finset String) (e : Entry) :
    (pass1step p e).1 =
      if normLoc e.location = "urlaub" then insert e.date p.1 else p.1 := by
  simp only [pass1step]
  split_ifs <;> rfl

theorem pass1step_snd (p : Finset String × Finset String) (e : Entry) :
    (pass1step p e).2 =
      if normLoc e.location = "krank" then insert e.date p.2 else p.2 := by
  simp only [pass1step]
  split_ifs with h1 h2 <;> first
    | rfl
    | exact absurd (h1.symm.trans h2) (by decide)

theorem mem_foldl_pass1_fst (es : List Entry) :
    ∀ (p : Finset String × Finset String) (d : String),
      d ∈ (es.foldl pass1step p).1 ↔
        d ∈ p.1 ∨ ∃ e ∈ es, normLoc e.location = "urlaub" ∧ e.date = d := by
  induction es with
  | nil => simp
  | cons e t ih =>
    intro p d
    rw [List.foldl_cons, ih, pass1step_fst, List.exists_mem_cons_iff]
    by_cases h1 : normLoc e.location = "urlaub"
    · rw [if_pos h1]
      simp only [Finset.mem_insert, h1, true_and]
      constructor
      · rintro ((rfl | h) | h)
        · exact Or.inr (Or.inl rfl)
        · exact Or.inl h
        · exact Or.inr (Or.inr h)
      · rintro (h | rfl | h)
        · exact Or.inl (Or.inr h)
        · exact Or.inl (Or.inl rfl)
        · exact Or.inr h
    · simp [if_neg h1, h1]

theorem mem_foldl_pass1_snd (es : List Entry) :
    ∀ (p : Finset String × Finset String) (d : String),
      d ∈ (es.foldl pass1step p).2 ↔
        d ∈ p.2 ∨ ∃ e ∈ es, normLoc e.location = "krank" ∧ e.date = d := by
  induction es with
  | nil => simp
  | cons e t ih =>
    intro p d
    rw [List.foldl_cons, ih, pass1step_snd, List.exists_mem_cons_iff]
    by_cases h1 : normLoc e.location = "krank"
    · rw [if_pos h1]
      simp only [Finset.mem_insert, h1, true_and]
      constructor
      · rintro ((rfl | h) | h)
        · exact Or.inr (Or.inl rfl)
        · exact Or.inl h
        · exact Or.inr (Or.inr h)
      · rintro (h | rfl | h)
        · exact Or.inl (Or.inr h)
        · exact Or.inl (Or.inl rfl)
        · exact Or.inr h
    · simp [if_neg h1, h1]

theorem pass1_fst_eq (es : List Entry) : (pass1 es).1 = vacDates es := by
  ext d
  rw [pass1, mem_foldl_pass1_fst]
  simp [vacDates, kindOf_eq_vacation, List.mem_filter]
  tauto

theorem pass1_snd_eq (es : List Entry) : (pass1 es).2 = sickDates es := by
  ext d
  rw [pass1, mem_foldl_pass1_snd]
  simp [sickDates, kindOf_eq_sick, List.mem_filter]
  tauto

theorem exclF_eq (es : List Entry) : exclF es = excludedB es := by
  funext d
  rw [exclF, excludedB, pass1_fst_eq, pass1_snd_eq]

/-! ### Characterisation of the hour-accumulation pass -/

theorem depFold_snd (date : String) (deps : List Deployment) :
    ∀ (p : Finset String × (String → ℚ)) (x : String),
      (depFold date deps p).2 x =
        p.2 x + (if x = date then
          (deps.map fun dp => calculateHours dp.startTime dp.endTime).sum
        else 0) := by
  induction deps with
  | nil => intro p x; simp [depFold]
  | cons dp t ih =>
    intro p x
    have hstep : depFold date (dp :: t) p =
        depFold date t
          (insert date p.1,
            addHours p.2 date (calculateHours dp.startTime dp.endTime)) := rfl
    rw [hstep, ih]
    dsimp only
    simp only [addHours, List.map_cons, List.sum_cons]
    by_cases hx : x = date
    · rw [if_pos hx, if_pos hx, if_pos hx]
      ring
    · rw [if_neg hx, if_neg hx, if_neg hx]

theorem depFold_fst (date : String) (deps : List Deployment) :
    ∀ (p : Finset String × (String → ℚ)),
      (depFold date deps p).1 = if deps = [] then p.1 else insert date p.1 := by
  induction deps with
  | nil => intro p; simp [depFold]
  | cons dp t ih =>
    intro p
    have hstep : depFold date (dp :: t) p =
        depFold date t
          (insert date p.1,
            addHours p.2 date (calculateHours dp.startTime dp.endTime)) := rfl
    rw [hstep, ih]
    by_cases ht : t = [] <;> simp [ht]

theorem pass2step_onCall (ex : String → Bool) (a : Acc) (e : Entry) :
    (pass2step ex a e).onCallDays =
      if onCallHit ex e then insert e.date a.onCallDays else a.onCallDays := by
  simp only [pass2step, onCallHit]
  by_cases hx : ex e.date
  · simp [hx]
  · simp only [Bool.not_eq_true] at hx
    by_cases hb : normLoc e.location = "bereitschaft"
    · cases hdep : e.deployments <;> simp [hx, hb, hdep]
    · by_cases hp : normLoc e.location = "pause"
      · simp [hx, hb, hp]
      · by_cases hc : 0 < calculateHours e.startTime e.endTime <;>
          simp [hx, hb, hp, hc]

theorem pass2step_workKeys (ex : String → Bool) (a : Acc) (e : Entry) :
    (pass2step ex a e).workKeys =
      if regHit ex e ∧ 0 < calculateHours e.startTime e.endTime then
        insert e.date a.workKeys
      else a.workKeys := by
  simp only [pass2step, regHit]
  by_cases hx : ex e.date
  · simp [hx]
  · simp only [Bool.not_eq_true] at hx
    by_cases hb : normLoc e.location = "bereitschaft"
    · cases hdep : e.deployments <;> simp [hx, hb, hdep]
    · by_cases hp : normLoc e.location = "pause"
      · simp [hx, hb, hp]
      · by_cases hc : 0 < calculateHours e.startTime e.endTime <;>
          simp [hx, hb, hp, hc]

theorem pass2step_workHours (ex : String → Bool) (a : Acc) (e : Entry)
    (d : String) :
    (pass2step ex a e).workHours d =
      a.workHours d +
        (if regHit ex e ∧ e.date = d ∧ 0 < calculateHours e.startTime e.endTime
         then calculateHours e.startTime e.endTime else 0) := by
  simp only [pass2step, regHit]
  by_cases hx : ex e.date
  · simp [hx]
  · simp only [Bool.not_eq_true] at hx
    by_cases hb : normLoc e.location = "bereitschaft"
    · cases hdep : e.deployments <;> simp [hx, hb, hdep]
    · by_cases hp : normLoc e.location = "pause"
      · simp [hx, hb, hp]
      · by_cases hc : 0 < calculateHours e.startTime e.endTime
        · simp only [hx, hb, hp, hc, if_neg, if_pos, ite_true, ite_false,
            Bool.false_eq_true, not_false_eq_true, and_true, true_and,
            ne_eq, and_self, addHours]
          by_cases hd : e.date = d
          · rw [if_pos hd.symm, if_pos (by simp [hd])]
          · rw [if_neg (fun h => hd h.symm), if_neg (by simp [hd])]
            ring
        · simp [hx, hb, hp, hc]

theorem pass2step_depKeys (ex : String → Bool) (a : Acc) (e : Entry) :
    (pass2step ex a e).depKeys =
      if onCallHit ex e ∧ e.deployments.getD [] ≠ [] then
        insert e.date a.depKeys
      else a.depKeys := by
  simp only [pass2step, onCallHit]
  by_cases hx : ex e.date
  · simp [hx]
  · simp only [Bool.not_eq_true] at hx
    by_cases hb : normLoc e.location = "bereitschaft"
    · cases hdep : e.deployments with
      | none => simp [hx, hb, hdep]
      | some deps =>
        by_cases hd0 : deps = [] <;>
          simp [hx, hb, hdep, depFold_fst, hd0]
    · by_cases hp : normLoc e.location = "pause"
      · simp [hx, hb, hp]
      · by_cases hc : 0 < calculateHours e.startTime e.endTime <;>
          simp [hx, hb, hp, hc]

theorem pass2step_depHours (ex : String → Bool) (a : Acc) (e : Entry)
    (d : String) :
    (pass2step ex a e).depHours d =
      a.depHours d + (if onCallHit ex e ∧ e.date = d then depsTotal e else 0) := by
  simp only [pass2step, onCallHit]
  by_cases hx : ex e.date
  · simp [hx]
  · simp only [Bool.not_eq_true] at hx
    by_cases hb : normLoc e.location = "bereitschaft"
    · cases hdep : e.deployments with
      | none => simp [hx, hb, hdep, depsTotal, ite_self]
      | some deps =>
        simp only [hx, hb, hdep, depFold_snd, depsTotal, Option.getD_some,
          ite_true, ite_false, Bool.false_eq_true, not_false_eq_true,
          true_and, and_true, if_neg, if_pos]
        by_cases hd : e.date = d
        · rw [if_pos hd.symm, if_pos (by simp [hd])]
        · rw [if_neg (fun h => hd h.symm), if_neg (by simp [hd])]
    · by_cases hp : normLoc e.location = "pause"
      · simp [hx, hb, hp]
      · by_cases hc : 0 < calculateHours e.startTime e.endTime <;>
          simp [hx, hb, hp, hc]

theorem regSum_cons (ex : String → Bool) (e : Entry) (t : List Entry)
    (d : String) :
    regSum ex (e :: t) d =
      (if regHit ex e ∧ e.date = d ∧ 0 < calculateHours e.startTime e.endTime
       then calculateHours e.startTime e.endTime else 0) + regSum ex t d := by
  simp [regSum]

theorem depSum_cons (ex : String → Bool) (e : Entry) (t : List Entry)
    (d : String) :
    depSum ex (e :: t) d =
      (if onCallHit ex e ∧ e.date = d then depsTotal e else 0)
        + depSum ex t d := by
  simp [depSum]

theorem regDaysF_cons (ex : String → Bool) (e : Entry) (t : List Entry) :
    regDaysF ex (e :: t) =
      if regHit ex e ∧ 0 < calculateHours e.startTime e.endTime then
        insert e.date (regDaysF ex t)
      else regDaysF ex t := by
  by_cases hP : regHit ex e ∧ 0 < calculateHours e.startTime e.endTime <;>
    simp [regDaysF, List.filter_cons, hP]

theorem depDaysF_cons (ex : String → Bool) (e : Entry) (t : List Entry) :
    depDaysF ex (e :: t) =
      if onCallHit ex e ∧ e.deployments.getD [] ≠ [] then
        insert e.date (depDaysF ex t)
      else depDaysF ex t := by
  by_cases hP : onCallHit ex e ∧ e.deployments.getD [] ≠ [] <;>
    simp [depDaysF, List.filter_cons, hP]

theorem onCallDaysF_cons (ex : String → Bool) (e : Entry) (t : List Entry) :
    onCallDaysF ex (e :: t) =
      if onCallHit ex e then insert e.date (onCallDaysF ex t)
      else onCallDaysF ex t := by
  by_cases hP : onCallHit ex e <;>
    simp [onCallDaysF, List.filter_cons, hP]

theorem pass2_foldl_workHours (ex : String → Bool) (es : List Entry) :
    ∀ (a : Acc) (d : String),
      (es.foldl (pass2step ex) a).workHours d = a.workHours d + regSum ex es d := by
  induction es with
  | nil => intro a d; simp [regSum]
  | cons e t ih =>
    intro a d
    rw [List.foldl_cons, ih, pass2step_workHours, regSum_cons]
    ring

theorem pass2_foldl_depHours (ex : String → Bool) (es : List Entry) :
    ∀ (a : Acc) (d : String),
      (es.foldl (pass2step ex) a).depHours d = a.depHours d + depSum ex es d := by
  induction es with
  | nil => intro a d; simp [depSum]
  | cons e t ih =>
    intro a d
    rw [List.foldl_cons, ih, pass2step_depHours, depSum_cons]
    ring

theorem pass2_foldl_workKeys (ex : String → Bool) (es : List Entry) :
    ∀ (a : Acc),
      (es.foldl (pass2step ex) a).workKeys = a.workKeys ∪ regDaysF ex es := by
  induction es with
  | nil => intro a; simp [regDaysF]
  | cons e t ih =>
    intro a
    rw [List.foldl_cons, ih, pass2step_workKeys, regDaysF_cons]
    by_cases hP : regHit ex e ∧ 0 < calculateHours e.startTime e.endTime <;>
      simp [hP, Finset.insert_union, Finset.union_insert]

theorem pass2_foldl_depKeys (ex : String → Bool) (es : List Entry) :
    ∀ (a : Acc),
      (es.foldl (pass2step ex) a).depKeys = a.depKeys ∪ depDaysF ex es := by
  induction es with
  | nil => intro a; simp [depDaysF]
  | cons e t ih =>
    intro a
    rw [List.foldl_cons, ih, pass2step_depKeys, depDaysF_cons]
    by_cases hP : onCallHit ex e ∧ e.deployments.getD [] ≠ [] <;>
      simp [hP, Finset.insert_union, Finset.union_insert]

theorem pass2_foldl_onCall (ex : String → Bool) (es : List Entry) :
    ∀ (a : Acc),
      (es.foldl (pass2step ex) a).onCallDays = a.onCallDays ∪ onCallDaysF ex es := by
  induction es with
  | nil => intro a; simp [onCallDaysF]
  | cons e t ih =>
    intro a
    rw [List.foldl_cons, ih, pass2step_onCall, onCallDaysF_cons]
    by_cases hP : onCallHit ex e <;>
      simp [hP, Finset.insert_union, Finset.union_insert]

theorem pass2_workHours (ex : String → Bool) (es : List Entry) (d : String) :
    (pass2 ex es).workHours d = regSum ex es d := by
  rw [pass2, pass2_foldl_workHours]
  simp

theorem pass2_depHours (ex : String → Bool) (es : List Entry) (d : String) :
    (pass2 ex es).depHours d = depSum ex es d := by
  rw [pass2, pass2_foldl_depHours]
  simp

theorem pass2_workKeys (ex : String → Bool) (es : List Entry) :
    (pass2 ex es).workKeys = regDaysF ex es := by
  rw [pass2, pass2_foldl_workKeys]
  exact Finset.empty_union _

theorem pass2_depKeys (ex : String → Bool) (es : List Entry) :
    (pass2 ex es).depKeys = depDaysF ex es := by
  rw [pass2, pass2_foldl_depKeys]
  exact Finset.empty_union _

theorem pass2_onCall (ex : String → Bool) (es : List Entry) :
    (pass2 ex es).onCallDays = onCallDaysF ex es := by
  rw [pass2, pass2_foldl_onCall]
  exact Finset.empty_union _

/-! ### The summary metrics in closed form -/

theorem summaryMetrics_totalOvertime (es : List Entry) (b : ℚ) (m : String) :
    (summaryMetrics es b m).totalOvertime =
      ((∑ d ∈ regDaysF (exclF es) es, (regSum (exclF es) es d - 8))
        + ∑ d ∈ depDaysF (exclF es) es, depSum (exclF es) es d) + b := by
  simp only [summaryMetrics, pass2_workKeys, pass2_depKeys, pass2_workHours,
    pass2_depHours]

theorem summaryMetrics_currentMonth (es : List Entry) (b : ℚ) (m : String) :
    (summaryMetrics es b m).currentMonthOvertime =
      (∑ d ∈ (regDaysF (exclF es) es).filter (fun d => strStartsWith d m = true),
          (regSum (exclF es) es d - 8))
        + ∑ d ∈ (depDaysF (exclF es) es).filter (fun d => strStartsWith d m = true),
            depSum (exclF es) es d := by
  simp only [summaryMetrics, pass2_workKeys, pass2_depKeys, pass2_workHours,
    pass2_depHours]

theorem summaryMetrics_totalWorkHours (es : List Entry) (b : ℚ) (m : String) :
    (summaryMetrics es b m).totalWorkHours =
      (∑ d ∈ regDaysF (exclF es) es, regSum (exclF es) es d)
        + ∑ d ∈ depDaysF (exclF es) es, depSum (exclF es) es d := by
  simp only [summaryMetrics, pass2_workKeys, pass2_depKeys, pass2_workHours,
    pass2_depHours]

theorem summaryMetrics_vacationDays (es : List Entry) (b : ℚ) (m : String) :
    (summaryMetrics es b m).vacationDays = (vacDates es).card := by
  simp only [summaryMetrics, pass1_fst_eq]

theorem summaryMetrics_sickDays (es : List Entry) (b : ℚ) (m : String) :
    (summaryMetrics es b m).sickDays = (sickDates es).card := by
  simp only [summaryMetrics, pass1_snd_eq]

theorem summaryMetrics_onCallDays (es : List Entry) (b : ℚ) (m : String) :
    (summaryMetrics es b m).onCallDays = (onCallDaysF (exclF es) es).card := by
  simp only [summaryMetrics, pass2_onCall]

/-! ### Bridges between the pass conditions and kind classification -/

theorem calculateHours_nonneg (s t : String) : 0 ≤ calculateHours s t := by
  by_cases h : s = "" ∨ t = ""
  · simp [calculateHours, h]
  · rw [calculateHours, if_neg h]
    cases hp : parseHHMM s with
    | none => simp
    | some a =>
      cases hq : parseHHMM t with
      | none => simp
      | some c => by_cases hle : c ≤ a <;> simp [hle, le_max_left]

theorem mem_vacDates {es : List Entry} {d : String} :
    d ∈ vacDates es ↔ ∃ e ∈ es, normLoc e.location = "urlaub" ∧ e.date = d := by
  simp [vacDates, List.mem_filter, kindOf_eq_vacation]
  tauto

theorem mem_sickDates {es : List Entry} {d : String} :
    d ∈ sickDates es ↔ ∃ e ∈ es, normLoc e.location = "krank" ∧ e.date = d := by
  simp [sickDates, List.mem_filter, kindOf_eq_sick]
  tauto

theorem regHit_exclF_iff {es : List Entry} {e : Entry} (he : e ∈ es) :
    regHit (exclF es) e ↔
      kindOf e.location = Kind.regular ∧ excludedB es e.date = false := by
  rw [exclF_eq]
  constructor
  · rintro ⟨hx, hb, hp⟩
    refine ⟨?_, hx⟩
    rw [kindOf_eq_regular]
    refine ⟨?_, ?_, hb, hp⟩
    · intro hu
      have hmem : e.date ∈ vacDates es := mem_vacDates.mpr ⟨e, he, hu, rfl⟩
      have : excludedB es e.date = true := by
        simp [excludedB, hmem]
      rw [this] at hx
      cases hx
    · intro hk
      have hmem : e.date ∈ sickDates es := mem_sickDates.mpr ⟨e, he, hk, rfl⟩
      have : excludedB es e.date = true := by
        simp [excludedB, hmem]
      rw [this] at hx
      cases hx
  · rintro ⟨hk, hx⟩
    rw [kindOf_eq_regular] at hk
    exact ⟨hx, hk.2.2.1, hk.2.2.2⟩

theorem onCallHit_exclF_iff {es : List Entry} {e : Entry} :
    onCallHit (exclF es) e ↔
      kindOf e.location = Kind.onCall ∧ excludedB es e.date = false := by
  rw [exclF_eq, onCallHit, kindOf_eq_onCall, and_comm]

/-! ### A fibering lemma for by-day sums -/

theorem sum_fiber (K : Finset String) (F : Entry → ℚ) :
    ∀ l : List Entry, (∀ e ∈ l, F e ≠ 0 → e.date ∈ K) →
      (∑ d ∈ K, (l.map fun e => if e.date = d then F e else 0).sum)
        = (l.map F).sum := by
  intro l
  induction l with
  | nil => intro _; simp
  | cons e t ih =>
    intro h
    simp only [List.map_cons, List.sum_cons]
    rw [Finset.sum_add_distrib, Finset.sum_ite_eq,
      ih fun e' he' => h e' (List.mem_cons_of_mem _ he')]
    by_cases he : e.date ∈ K
    · rw [if_pos he]
    · rw [if_neg he]
      have hF : F e = 0 := by
        by_contra hne
        exact he (h e (List.mem_cons_self e t) hne)
      rw [hF]

/-! ### Claim C2: the totalOvertime formula -/

/-- Non-excluded days carrying regular hours, in the words of the
specification: dates of Regular-kind entries on non-excluded dates with
positive elapsed hours. -/
def claimRegDays (es : List Entry) : Finset String :=
  ((es.filter fun e =>
      decide (kindOf e.location = Kind.regular ∧ excludedB es e.date = false
        ∧ 0 < calculateHours e.startTime e.endTime)).map (·.date)).toFinset

/-- A day's summed Regular-entry hours (non-excluded entries only). -/
def claimRegSum (es : List Entry) (d : String) : ℚ :=
  (es.map fun e =>
    if kindOf e.location = Kind.regular ∧ excludedB es e.date = false
        ∧ e.date = d
    then calculateHours e.startTime e.endTime else 0).sum

/-- The sum of all non-excluded on-call deployment hours. -/
def claimOnCallHours (es : List Entry) : ℚ :=
  (es.map fun e =>
    if kindOf e.location = Kind.onCall ∧ excludedB es e.date = false
    then depsTotal e else 0).sum

theorem regDaysF_eq_claim (es : List Entry) :
    regDaysF (exclF es) es = claimRegDays es := by
  unfold regDaysF claimRegDays
  congr 2
  apply List.filter_congr
  intro e he
  apply decide_eq_decide.mpr
  have h := regHit_exclF_iff he
  tauto

theorem regSum_eq_claim (es : List Entry) (d : String) :
    regSum (exclF es) es d = claimRegSum es d := by
  unfold regSum claimRegSum
  apply congrArg
  apply List.map_congr_left
  intro e he
  have h := regHit_exclF_iff he
  have hnn := calculateHours_nonneg e.startTime e.endTime
  by_cases hc : 0 < calculateHours e.startTime e.endTime
  · have : (regHit (exclF es) e ∧ e.date = d
        ∧ 0 < calculateHours e.startTime e.endTime) ↔
        (kindOf e.location = Kind.regular ∧ excludedB es e.date = false
          ∧ e.date = d) := by tauto
    simp only [this]
  · have hz : calculateHours e.startTime e.endTime = 0 := le_antisymm (not_lt.mp hc) hnn
    rw [hz]
    simp [hc]

theorem depDaysF_sum_eq_claim (es : List Entry) :
    (∑ d ∈ depDaysF (exclF es) es, depSum (exclF es) es d)
      = claimOnCallHours es := by
  have hsum : ∀ d, depSum (exclF es) es d =
      (es.map fun e => if e.date = d then
        (if onCallHit (exclF es) e then depsTotal e else 0) else 0).sum := by
    intro d
    unfold depSum
    apply congrArg
    apply List.map_congr_left
    intro e _
    by_cases h1 : onCallHit (exclF es) e <;> by_cases h2 : e.date = d <;>
      simp [h1, h2]
  calc (∑ d ∈ depDaysF (exclF es) es, depSum (exclF es) es d)
      = ∑ d ∈ depDaysF (exclF es) es,
          (es.map fun e => if e.date = d then
            (if onCallHit (exclF es) e then depsTotal e else 0) else 0).sum := by
        exact Finset.sum_congr rfl fun d _ => hsum d
    _ = (es.map fun e => if onCallHit (exclF es) e then depsTotal e else 0).sum := by
        apply sum_fiber
        intro e he hne
        have hoc : onCallHit (exclF es) e := by
          by_contra hoc
          simp [hoc] at hne
        have hdeps : e.deployments.getD [] ≠ [] := by
          intro hnil
          apply hne
          rw [if_pos hoc]
          unfold depsTotal
          rw [hnil]
          rfl
        unfold depDaysF
        simp only [List.mem_toFinset, List.mem_map]
        exact ⟨e, List.mem_filter.mpr ⟨he, by simp [hoc, hdeps]⟩, rfl⟩
    _ = claimOnCallHours es := by
        unfold claimOnCallHours
        apply congrArg
        apply List.map_congr_left
        intro e _
        have h := @onCallHit_exclF_iff es e
        by_cases h1 : onCallHit (exclF es) e
        · rw [if_pos h1, if_pos (h.mp h1)]
        · rw [if_neg h1, if_neg (fun hk => h1 (h.mpr hk))]

/-- Claim C2: for every entry collection and baseline correction,
`totalOvertime` equals the sum over non-excluded days with regular hours
of that day's summed Regular-entry hours minus 8 (the baseline is
subtracted once per day, after summing the day's Regular entries), plus
the sum of all non-excluded on-call deployment hours added 1:1, plus the
baseline overtime correction. -/
theorem claim_C2 (es : List Entry) (b : ℚ) (m : String) :
    (summaryMetrics es b m).totalOvertime =
      (∑ d ∈ claimRegDays es, (claimRegSum es d - 8))
        + claimOnCallHours es + b := by
  rw [summaryMetrics_totalOvertime, regDaysF_eq_claim, depDaysF_sum_eq_claim]
  rw [Finset.sum_congr rfl fun d _ => by rw [regSum_eq_claim]]

/-! ### Claim C1: precedence of vacation/sick days -/

theorem vacDates_cons_of_not_vac {e : Entry} {es : List Entry}
    (h : normLoc e.location ≠ "urlaub") :
    vacDates (e :: es) = vacDates es := by
  have hk : ¬ (kindOf e.location = Kind.vacation) := fun hk =>
    h (kindOf_eq_vacation.mp hk)
  simp [vacDates, List.filter_cons, hk]

theorem sickDates_cons_of_not_sick {e : Entry} {es : List Entry}
    (h : normLoc e.location ≠ "krank") :
    sickDates (e :: es) = sickDates es := by
  have hk : ¬ (kindOf e.location = Kind.sick) := fun hk =>
    h (kindOf_eq_sick.mp hk)
  simp [sickDates, List.filter_cons, hk]

/-- Claim C1: an entry of Regular or OnCall kind dated a day flagged
Vacation or Sick contributes nothing: adding such an entry (with any
times or deployments) leaves `totalWorkHours`, `totalOvertime` and
`currentMonthOvertime` unchanged. -/
theorem claim_C1 (es : List Entry) (b : ℚ) (m : String) (e : Entry)
    (hd : e.date ∈ vacDates es ∨ e.date ∈ sickDates es)
    (hk : kindOf e.location = Kind.regular ∨ kindOf e.location = Kind.onCall) :
    (summaryMetrics (e :: es) b m).totalWorkHours
        = (summaryMetrics es b m).totalWorkHours
      ∧ (summaryMetrics (e :: es) b m).totalOvertime
        = (summaryMetrics es b m).totalOvertime
      ∧ (summaryMetrics (e :: es) b m).currentMonthOvertime
        = (summaryMetrics es b m).currentMonthOvertime := by
  have hnv : normLoc e.location ≠ "urlaub" := by
    rcases hk with hk | hk
    · exact (kindOf_eq_regular.mp hk).1
    · intro h
      exact absurd (h.symm.trans (kindOf_eq_onCall.mp hk)) (by decide)
  have hnk : normLoc e.location ≠ "krank" := by
    rcases hk with hk | hk
    · exact (kindOf_eq_regular.mp hk).2.1
    · intro h
      exact absurd (h.symm.trans (kindOf_eq_onCall.mp hk)) (by decide)
  have hvac := @vacDates_cons_of_not_vac e es hnv
  have hsick := @sickDates_cons_of_not_sick e es hnk
  have hex : exclF (e :: es) = exclF es := by
    rw [exclF_eq, exclF_eq]
    funext d
    simp [excludedB, hvac, hsick]
  have hextrue : exclF es e.date = true := by
    rw [exclF_eq]
    exact decide_eq_true hd
  have hreghit : ¬ regHit (exclF es) e := by
    rintro ⟨hx, -, -⟩
    rw [hextrue] at hx
    cases hx
  have honhit : ¬ onCallHit (exclF es) e := by
    rintro ⟨hx, -⟩
    rw [hextrue] at hx
    cases hx
  have hrsum : ∀ d, regSum (exclF es) (e :: es) d = regSum (exclF es) es d := by
    intro d
    rw [regSum_cons, if_neg fun h => hreghit h.1, zero_add]
  have hdsum : ∀ d, depSum (exclF es) (e :: es) d = depSum (exclF es) es d := by
    intro d
    rw [depSum_cons, if_neg fun h => honhit h.1, zero_add]
  have hrdays : regDaysF (exclF es) (e :: es) = regDaysF (exclF es) es := by
    rw [regDaysF_cons, if_neg fun h => hreghit h.1]
  have hddays : depDaysF (exclF es) (e :: es) = depDaysF (exclF es) es := by
    rw [depDaysF_cons, if_neg fun h => honhit h.1]
  refine ⟨?_, ?_, ?_⟩
  · rw [summaryMetrics_totalWorkHours, summaryMetrics_totalWorkHours, hex,
      hrdays, hddays]
    simp only [hrsum, hdsum]
  · rw [summaryMetrics_totalOvertime, summaryMetrics_totalOvertime, hex,
      hrdays, hddays]
    simp only [hrsum, hdsum]
  · rw [summaryMetrics_currentMonth, summaryMetrics_currentMonth, hex,
      hrdays, hddays]
    simp only [hrsum, hdsum]

theorem claim_C1_witness :
    (("2024-03-04" : String)
        ∈ vacDates [⟨"1", "2024-03-04", "Urlaub", "", "", none, none⟩]
      ∨ ("2024-03-04" : String)
        ∈ sickDates [⟨"1", "2024-03-04", "Urlaub", "", "", none, none⟩])
    ∧ (summaryMetrics
        (⟨"2", "2024-03-04", "Büro", "09:00", "17:00", none, none⟩
          :: [⟨"1", "2024-03-04", "Urlaub", "", "", none, none⟩]) 0 "2024-03"
        ).totalWorkHours
      = (summaryMetrics [⟨"1", "2024-03-04", "Urlaub", "", "", none, none⟩]
          0 "2024-03").totalWorkHours :=
  ⟨by decide,
    (claim_C1 [⟨"1", "2024-03-04", "Urlaub", "", "", none, none⟩] 0 "2024-03"
      ⟨"2", "2024-03-04", "Büro", "09:00", "17:00", none, none⟩
      (by decide) (by decide)).1⟩

/-! ### Claim C3: the categorical day counts -/

/-- Dates carrying at least one entry classified OnCall, whether or not
the date is flagged Vacation or Sick (the claim's reading). -/
def claimOnCallDates (es : List Entry) : Finset String :=
  ((es.filter fun e => decide (kindOf e.location = Kind.onCall)).map
    (·.date)).toFinset

/-- Dates carrying at least one entry classified OnCall and not flagged
Vacation or Sick (what the code actually counts). -/
def claimOnCallDatesAmended (es : List Entry) : Finset String :=
  ((es.filter fun e =>
      decide (kindOf e.location = Kind.onCall
        ∧ excludedB es e.date = false)).map (·.date)).toFinset

/-- Counterexample to claim C3: a date with both a Vacation entry and an
OnCall entry is not counted in `onCallDays` (the vacation/sick skip in
the hour pass happens before `onCallDays.add`), contradicting the
claim's "including dates also flagged Vacation or Sick". -/
theorem claim_C3_cex :
    (summaryMetrics
        [⟨"1", "2024-03-04", "Urlaub", "", "", none, none⟩,
         ⟨"2", "2024-03-04", "Bereitschaft", "", "", none, none⟩]
        0 "2024-03").onCallDays = 0
    ∧ (claimOnCallDates
        [⟨"1", "2024-03-04", "Urlaub", "", "", none, none⟩,
         ⟨"2", "2024-03-04", "Bereitschaft", "", "", none, none⟩]).card = 1
    ∧ (summaryMetrics
        [⟨"1", "2024-03-04", "Urlaub", "", "", none, none⟩,
         ⟨"2", "2024-03-04", "Bereitschaft", "", "", none, none⟩]
        0 "2024-03").onCallDays
      ≠ (claimOnCallDates
        [⟨"1", "2024-03-04", "Urlaub", "", "", none, none⟩,
         ⟨"2", "2024-03-04", "Bereitschaft", "", "", none, none⟩]).card := by
  refine ⟨?_, ?_, ?_⟩ <;> decide

/-- Claim C3 as amended: `vacationDays` and `sickDays` count the
distinct dates carrying at least one entry of the respective kind (so a
date carrying both counts in both), while `onCallDays` counts only the
distinct dates carrying an OnCall entry that are not flagged Vacation or
Sick. -/
theorem claim_C3_amended (es : List Entry) (b : ℚ) (m : String) :
    (summaryMetrics es b m).vacationDays = (vacDates es).card
    ∧ (summaryMetrics es b m).sickDays = (sickDates es).card
    ∧ (summaryMetrics es b m).onCallDays = (claimOnCallDatesAmended es).card := by
  refine ⟨summaryMetrics_vacationDays es b m, summaryMetrics_sickDays es b m, ?_⟩
  rw [summaryMetrics_onCallDays]
  have : onCallDaysF (exclF es) es = claimOnCallDatesAmended es := by
    unfold onCallDaysF claimOnCallDatesAmended
    congr 2
    apply List.filter_congr
    intro e he
    apply decide_eq_decide.mpr
    exact onCallHit_exclF_iff
  rw [this]

/-! ### Claim C10: permutation invariance of the metrics -/

/-- Claim C10: the six summary metrics are invariant under any
permutation of the entry list. -/
theorem claim_C10 (es es' : List Entry) (b : ℚ) (m : String)
    (hp : es.Perm es') :
    summaryMetrics es b m = summaryMetrics es' b m := by
  have hvac : vacDates es = vacDates es' :=
    List.toFinset_eq_of_perm _ _ ((hp.filter _).map _)
  have hsick : sickDates es = sickDates es' :=
    List.toFinset_eq_of_perm _ _ ((hp.filter _).map _)
  have hex : exclF es = exclF es' := by
    rw [exclF_eq, exclF_eq]
    funext d
    simp [excludedB, hvac, hsick]
  have hrdays : regDaysF (exclF es') es = regDaysF (exclF es') es' :=
    List.toFinset_eq_of_perm _ _ ((hp.filter _).map _)
  have hddays : depDaysF (exclF es') es = depDaysF (exclF es') es' :=
    List.toFinset_eq_of_perm _ _ ((hp.filter _).map _)
  have hodays : onCallDaysF (exclF es') es = onCallDaysF (exclF es') es' :=
    List.toFinset_eq_of_perm _ _ ((hp.filter _).map _)
  have hrsum : ∀ d, regSum (exclF es') es d = regSum (exclF es') es' d :=
    fun d => (hp.map _).sum_eq
  have hdsum : ∀ d, depSum (exclF es') es d = depSum (exclF es') es' d :=
    fun d => (hp.map _).sum_eq
  apply SummaryMetrics.ext
  · rw [summaryMetrics_totalOvertime, summaryMetrics_totalOvertime, hex,
      hrdays, hddays]
    simp only [hrsum, hdsum]
  · rw [summaryMetrics_currentMonth, summaryMetrics_currentMonth, hex,
      hrdays, hddays]
    simp only [hrsum, hdsum]
  · rw [summaryMetrics_totalWorkHours, summaryMetrics_totalWorkHours, hex,
      hrdays, hddays]
    simp only [hrsum, hdsum]
  · rw [summaryMetrics_vacationDays, summaryMetrics_vacationDays, hvac]
  · rw [summaryMetrics_sickDays, summaryMetrics_sickDays, hsick]
  · rw [summaryMetrics_onCallDays, summaryMetrics_onCallDays, hex, hodays]

theorem claim_C10_witness :
    (([⟨"1", "2024-03-04", "Büro", "09:00", "17:30", none, none⟩,
       ⟨"2", "2024-03-05", "Urlaub", "", "", none, none⟩] : List Entry).Perm
      [⟨"2", "2024-03-05", "Urlaub", "", "", none, none⟩,
       ⟨"1", "2024-03-04", "Büro", "09:00", "17:30", none, none⟩])
    ∧ summaryMetrics
        [⟨"1", "2024-03-04", "Büro", "09:00", "17:30", none, none⟩,
         ⟨"2", "2024-03-05", "Urlaub", "", "", none, none⟩] 5 "2024-03"
      = summaryMetrics
        [⟨"2", "2024-03-05", "Urlaub", "", "", none, none⟩,
         ⟨"1", "2024-03-04", "Büro", "09:00", "17:30", none, none⟩] 5 "2024-03" :=
  ⟨List.Perm.swap _ _ _,
    claim_C10 _ _ 5 "2024-03" (List.Perm.swap _ _ _)⟩

/-! ### Claim C4: elapsed-hours arithmetic -/

/-- Claim C4: `calculateHours` returns `0` when either argument is
empty, `0` when the parsed end time is at or before the parsed start
time, and exactly `(end - start)` minutes divided by `60` (fractional
hours, no rounding) when the start is strictly before the end. -/
theorem claim_C4 (s t : String) :
    ((s = "" ∨ t = "") → calculateHours s t = 0)
    ∧ (∀ a c : ℤ, parseHHMM s = some a → parseHHMM t = some c →
        ((c ≤ a → calculateHours s t = 0)
          ∧ (a < c → calculateHours s t = ((c : ℚ) - a) / 60))) := by
  constructor
  · intro h
    rw [calculateHours, if_pos h]
  · intro a c hs ht
    have hse : s ≠ "" := by
      intro h
      rw [h, show parseHHMM "" = none from rfl] at hs
      exact Option.noConfusion hs
    have hte : t ≠ "" := by
      intro h
      rw [h, show parseHHMM "" = none from rfl] at ht
      exact Option.noConfusion ht
    rw [calculateHours, if_neg (not_or.mpr ⟨hse, hte⟩), hs, ht]
    dsimp only
    constructor
    · intro hle
      rw [if_pos hle]
    · intro hlt
      rw [if_neg (not_le.mpr hlt)]
      have hnn : (0 : ℚ) ≤ ((c - a : ℤ) : ℚ) / 60 := by
        apply div_nonneg _ (by norm_num)
        have : (0 : ℤ) ≤ c - a := by omega
        exact_mod_cast this
      rw [max_eq_right hnn]
      push_cast
      ring

theorem claim_C4_witness :
    calculateHours "" "17:00" = 0
    ∧ calculateHours "17:00" "09:00" = 0
    ∧ calculateHours "09:00" "17:30" = 17/2 := by
  refine ⟨(claim_C4 "" "17:00").1 (Or.inl rfl), ?_, ?_⟩
  · exact ((claim_C4 "17:00" "09:00").2 1020 540 (by decide) (by decide)).1
      (by decide)
  · have h := ((claim_C4 "09:00" "17:30").2 540 1050 (by decide) (by decide)).2
      (by decide)
    rw [h]
    norm_num

/-! ### Claim C5: the hour formatter -/

/-- Rounding half away from zero at two decimal places, the rounding
the claim asserts (`x` is the value already scaled by `100`). -/
def roundAway (x : ℚ) : ℤ :=
  if x < 0 then -⌊-x + 1/2⌋ else ⌊x + 1/2⌋

/-- The claim's reading of `formatHours`: round half away from zero at
two decimal places, then determine the sign and render the two-decimal
magnitude. -/
def formatHoursClaimC5 (hours : ℚ) : String :=
  (if roundAway (hours * 100) < 0 then "-" else "+") ++ " "
    ++ intlDe2 |((roundAway (hours * 100) : ℚ)) / 100|

/-- JavaScript `Math.round` semantics: round half toward positive
infinity at two decimal places. -/
def roundHalfUp2 (hours : ℚ) : ℤ := ⌊hours * 100 + 1/2⌋

/-- The amended reading of `formatHours`: round half toward positive
infinity (JavaScript `Math.round`), determine the sign from the rounded
value, render the two-decimal magnitude in German locale format. -/
def formatHoursAmendedSpec (hours : ℚ) : String :=
  (if roundHalfUp2 hours < 0 then "-" else "+") ++ " "
    ++ group3 (toString ((roundHalfUp2 hours).natAbs / 100)) ++ ","
    ++ padNat2 ((roundHalfUp2 hours).natAbs % 100)

theorem intlDe2_abs_div100 (n : ℤ) :
    intlDe2 |(n : ℚ) / 100| =
      group3 (toString (n.natAbs / 100)) ++ "," ++ padNat2 (n.natAbs % 100) := by
  have habs : |(n : ℚ) / 100| = ((|n| : ℤ) : ℚ) / 100 := by
    rw [abs_div, Int.cast_abs]
    norm_num
  have hfloor : (⌊|(n : ℚ) / 100| * 100 + 1/2⌋ : ℤ) = |n| := by
    rw [habs, div_mul_cancel₀ _ (by norm_num : (100 : ℚ) ≠ 0),
      Int.floor_int_add]
    norm_num
  have hempty : ∀ x : String, "" ++ x = x := fun x => rfl
  simp only [intlDe2]
  rw [if_neg (not_lt.mpr (abs_nonneg ((n : ℚ) / 100))), hfloor,
    if_neg (not_lt.mpr (abs_nonneg n)), Int.natAbs_abs, hempty]

/-- Counterexample to claim C5: `formatHours` rounds with JavaScript
`Math.round` (half toward positive infinity), not half away from zero:
at `-0.125` the code renders magnitude `0,12` where the claimed
rounding requires `0,13`. -/
theorem claim_C5_cex :
    formatHours (-1/8) = "- 0,12"
    ∧ formatHoursClaimC5 (-1/8) = "- 0,13"
    ∧ formatHours (-1/8) ≠ formatHoursClaimC5 (-1/8) := by
  have h1 : formatHours (-1/8) = "- 0,12" := by
    have hj : jsRound ((-1/8 : ℚ) * 100) = -12 := by
      rw [jsRound]
      norm_num
    simp only [formatHours, hj]
    have hsign : (((-12 : ℤ) : ℚ)) / 100 < 0 :=
      div_neg_of_neg_of_pos (by norm_num) (by norm_num)
    rw [if_pos hsign, intlDe2_abs_div100 (-12)]
    decide
  have h2 : formatHoursClaimC5 (-1/8) = "- 0,13" := by
    have hr : roundAway ((-1/8 : ℚ) * 100) = -13 := by
      rw [roundAway, if_pos (show (-1/8 : ℚ) * 100 < 0 by norm_num)]
      norm_num
    simp only [formatHoursClaimC5, hr]
    rw [intlDe2_abs_div100 (-13)]
    decide
  refine ⟨h1, h2, ?_⟩
  rw [h1, h2]
  decide

/-- Claim C5 as amended: `formatHours` rounds half toward positive
infinity (JavaScript `Math.round` semantics, so `-0.125` renders as
`- 0,12`), not half away from zero; the sign is determined after
rounding, exact zero renders with a positive sign as `+ 0,00` and
`-1.5` renders as `- 1,50` (German locale: space after the sign, comma
decimal separator). -/
theorem claim_C5_amended :
    (∀ h : ℚ, formatHours h = formatHoursAmendedSpec h)
    ∧ formatHours 0 = "+ 0,00"
    ∧ formatHours (-3/2) = "- 1,50" := by
  have hmain : ∀ h : ℚ, formatHours h = formatHoursAmendedSpec h := by
    intro h
    simp only [formatHours, jsRound, formatHoursAmendedSpec, roundHalfUp2]
    rw [intlDe2_abs_div100]
    have hsign : (((⌊h * 100 + 1/2⌋ : ℤ) : ℚ) / 100 < 0)
        ↔ (⌊h * 100 + 1/2⌋ : ℤ) < 0 := by
      constructor
      · intro hx
        by_contra hge
        have hnn : (0 : ℚ) ≤ ((⌊h * 100 + 1/2⌋ : ℤ) : ℚ) / 100 :=
          div_nonneg (by exact_mod_cast not_lt.mp hge) (by norm_num)
        exact absurd hx (not_lt.mpr hnn)
      · intro hx
        exact div_neg_of_neg_of_pos (by exact_mod_cast hx) (by norm_num)
    by_cases hneg : (⌊h * 100 + 1/2⌋ : ℤ) < 0
    · rw [if_pos (hsign.mpr hneg), if_pos hneg]
      simp only [String.append_assoc]
    · rw [if_neg (fun hx => hneg (hsign.mp hx)), if_neg hneg]
      simp only [String.append_assoc]
  refine ⟨hmain, ?_, ?_⟩
  · rw [hmain 0]
    simp only [formatHoursAmendedSpec, roundHalfUp2]
    simp only [show (⌊(0 : ℚ) * 100 + 1/2⌋ : ℤ) = 0 from by norm_num]
    decide
  · rw [hmain (-3/2)]
    simp only [formatHoursAmendedSpec, roundHalfUp2]
    simp only [show (⌊(-3/2 : ℚ) * 100 + 1/2⌋ : ℤ) = -150 from by norm_num]
    decide

/-! ### Claim C7: add/update validation -/

/-- The claim's reject condition: blank date or location, or kind
Regular with non-positive elapsed time. -/
def claimRejectC7 (f : EntryForm) : Prop :=
  f.date = "" ∨ f.location = ""
    ∨ (kindOf f.location = Kind.regular
        ∧ calculateHours f.startTime f.endTime ≤ 0)

instance (f : EntryForm) : Decidable (claimRejectC7 f) :=
  inferInstanceAs (Decidable (_ ∨ _ ∨ _))

/-- The amended reject condition: blank date or location, or kind
neither Vacation nor Sick nor OnCall (that is, Regular or Pause) with
non-positive elapsed time. -/
def amendedRejectC7 (f : EntryForm) : Prop :=
  f.date = "" ∨ f.location = ""
    ∨ ((kindOf f.location = Kind.regular ∨ kindOf f.location = Kind.pause)
        ∧ calculateHours f.startTime f.endTime ≤ 0)

theorem not_isSpecialLoc_iff {location : String} :
    ¬ isSpecialLoc location ↔
      (kindOf location = Kind.regular ∨ kindOf location = Kind.pause) := by
  constructor
  · intro h
    rw [isSpecialLoc] at h
    push_neg at h
    obtain ⟨h1, h2, h3⟩ := h
    by_cases hp : normLoc location = "pause"
    · exact Or.inr (kindOf_eq_pause.mpr hp)
    · exact Or.inl (kindOf_eq_regular.mpr ⟨h1, h2, h3, hp⟩)
  · rintro (h | h) hs
    · rw [kindOf_eq_regular] at h
      rcases hs with hs | hs | hs
      · exact h.1 hs
      · exact h.2.1 hs
      · exact h.2.2.1 hs
    · rw [kindOf_eq_pause] at h
      rcases hs with hs | hs | hs <;>
        exact absurd (hs.symm.trans h) (by decide)

theorem calculateHours_empty_left {t : String} : calculateHours "" t = 0 := by
  rw [calculateHours, if_pos (Or.inl rfl)]

theorem calculateHours_empty_right {s : String} : calculateHours s "" = 0 := by
  rw [calculateHours, if_pos (Or.inr rfl)]

theorem timeInvalid_iff {s t : String} :
    (s = "" ∨ t = "" ∨ calculateHours s t ≤ 0) ↔ calculateHours s t ≤ 0 := by
  constructor
  · rintro (h | h | h)
    · rw [h, calculateHours_empty_left]
    · rw [h, calculateHours_empty_right]
    · exact h
  · exact fun h => Or.inr (Or.inr h)

/-- Counterexample to claim C7: a Pause entry with no time bounds is
rejected by the code although its kind is not Regular, so the claim's
"exactly when" fails. -/
theorem claim_C7_cex :
    (handleSubmit "1"
        ⟨"0", "2024-03-04", "Pause", "", "", false, false, []⟩ []).isOk = false
    ∧ ¬ claimRejectC7 ⟨"0", "2024-03-04", "Pause", "", "", false, false, []⟩ := by
  constructor
  · rfl
  · intro h
    rcases h with h | h | ⟨h, -⟩
    · exact absurd h (by decide)
    · exact absurd h (by decide)
    · exact absurd h (by decide)

/-- Claim C7 as amended: `add` and `update` reject, leaving the entry
collection unchanged, exactly when the date or location is blank, or
the kind is Regular or Pause (any kind requiring time bounds) and the
elapsed time is not positive; a successful add prepends exactly the
built entry and a successful update only replaces the entry with the
edited id, and a stored time-bounded entry always has a positive span. -/
theorem claim_C7_amended (id : String) (f : EntryForm) (es : List Entry) :
    ((handleSubmit id f es).isOk = false ↔ amendedRejectC7 f)
    ∧ ((handleSaveChanges f es).isOk = false ↔ amendedRejectC7 f)
    ∧ (∀ l, handleSubmit id f es = .ok l → l = mkEntryFromForm id f :: es)
    ∧ (∀ l, handleSaveChanges f es = .ok l →
        l = es.map fun e => if e.id = f.id then mkEntryFromForm f.id f else e)
    ∧ ((handleSubmit id f es).isOk = true → ¬ isSpecialLoc f.location →
        0 < calculateHours (mkEntryFromForm id f).startTime
            (mkEntryFromForm id f).endTime) := by
  have hcond : (¬ isSpecialLoc f.location
      ∧ (f.startTime = "" ∨ f.endTime = ""
          ∨ calculateHours f.startTime f.endTime ≤ 0))
      ↔ ((kindOf f.location = Kind.regular ∨ kindOf f.location = Kind.pause)
          ∧ calculateHours f.startTime f.endTime ≤ 0) := by
    rw [not_isSpecialLoc_iff, timeInvalid_iff]
  rw [handleSubmit, handleSaveChanges]
  by_cases h1 : f.date = "" ∨ f.location = ""
  · rw [if_pos h1, if_pos h1]
    refine ⟨?_, ?_, ?_, ?_, ?_⟩
    · exact ⟨fun _ => Or.imp_right Or.inl h1, fun _ => rfl⟩
    · exact ⟨fun _ => Or.imp_right Or.inl h1, fun _ => rfl⟩
    · intro l hl
      exact Except.noConfusion hl
    · intro l hl
      exact Except.noConfusion hl
    · intro hl
      exact Bool.noConfusion hl
  · rw [if_neg h1, if_neg h1]
    by_cases h2 : ¬ isSpecialLoc f.location
        ∧ (f.startTime = "" ∨ f.endTime = ""
            ∨ calculateHours f.startTime f.endTime ≤ 0)
    · rw [if_pos h2, if_pos h2]
      refine ⟨?_, ?_, ?_, ?_, ?_⟩
      · exact ⟨fun _ => Or.inr (Or.inr (hcond.mp h2)), fun _ => rfl⟩
      · exact ⟨fun _ => Or.inr (Or.inr (hcond.mp h2)), fun _ => rfl⟩
      · intro l hl
        exact Except.noConfusion hl
      · intro l hl
        exact Except.noConfusion hl
      · intro hl
        exact Bool.noConfusion hl
    · rw [if_neg h2, if_neg h2]
      refine ⟨?_, ?_, ?_, ?_, ?_⟩
      · constructor
        · intro h
          exact Bool.noConfusion h
        · intro h
          rcases h with h | h | h
          · exact (h1 (Or.inl h)).elim
          · exact (h1 (Or.inr h)).elim
          · exact (h2 (hcond.mpr h)).elim
      · constructor
        · intro h
          exact Bool.noConfusion h
        · intro h
          rcases h with h | h | h
          · exact (h1 (Or.inl h)).elim
          · exact (h1 (Or.inr h)).elim
          · exact (h2 (hcond.mpr h)).elim
      · intro l hl
        injection hl with hl
        exact hl.symm
      · intro l hl
        injection hl with hl
        exact hl.symm
      · intro _ hns
        rw [mkEntryFromForm]
        dsimp only
        rw [if_neg hns, if_neg hns]
        rcases not_and_or.mp h2 with h2' | h2'
        · exact absurd hns h2'
        · push_neg at h2'
          exact h2'.2.2

theorem claim_C7_witness :
    [mkEntryFromForm "1" ⟨"0", "2024-03-04", "Urlaub", "", "", false, false, []⟩]
      = mkEntryFromForm "1" ⟨"0", "2024-03-04", "Urlaub", "", "", false, false, []⟩
          :: ([] : List Entry)
    ∧ (handleSubmit "1"
        ⟨"0", "2024-03-04", "Pause", "", "", false, false, []⟩ []).isOk = false :=
  ⟨(claim_C7_amended "1"
      ⟨"0", "2024-03-04", "Urlaub", "", "", false, false, []⟩ []).2.2.1 _ rfl,
   (claim_C7_amended "1"
      ⟨"0", "2024-03-04", "Pause", "", "", false, false, []⟩ []).1.mpr
     (Or.inr (Or.inr ⟨Or.inr (by decide), le_of_eq calculateHours_empty_left⟩))⟩

/-! ### Claim C9: the entry shape invariant -/

theorem handleSubmit_ok {id : String} {f : EntryForm} {es l : List Entry}
    (h : handleSubmit id f es = .ok l) : l = mkEntryFromForm id f :: es := by
  rw [handleSubmit] at h
  by_cases h1 : f.date = "" ∨ f.location = ""
  · rw [if_pos h1] at h
    exact Except.noConfusion h
  · rw [if_neg h1] at h
    by_cases h2 : ¬ isSpecialLoc f.location
        ∧ (f.startTime = "" ∨ f.endTime = ""
            ∨ calculateHours f.startTime f.endTime ≤ 0)
    · rw [if_pos h2] at h
      exact Except.noConfusion h
    · rw [if_neg h2] at h
      exact (Except.ok.inj h).symm

theorem handleSaveChanges_ok {f : EntryForm} {es l : List Entry}
    (h : handleSaveChanges f es = .ok l) :
    l = es.map fun e => if e.id = f.id then mkEntryFromForm f.id f else e := by
  rw [handleSaveChanges] at h
  by_cases h1 : f.date = "" ∨ f.location = ""
  · rw [if_pos h1] at h
    exact Except.noConfusion h
  · rw [if_neg h1] at h
    by_cases h2 : ¬ isSpecialLoc f.location
        ∧ (f.startTime = "" ∨ f.endTime = ""
            ∨ calculateHours f.startTime f.endTime ≤ 0)
    · rw [if_pos h2] at h
      exact Except.noConfusion h
    · rw [if_neg h2] at h
      exact (Except.ok.inj h).symm

theorem mkEntryFromForm_invariant (id : String) (f : EntryForm) :
    ((mkEntryFromForm id f).deployments ≠ none →
        kindOf (mkEntryFromForm id f).location = Kind.onCall
          ∧ f.hasDeployments = true)
    ∧ ((mkEntryFromForm id f).isChildSick ≠ none →
        kindOf (mkEntryFromForm id f).location = Kind.sick)
    ∧ ((kindOf (mkEntryFromForm id f).location = Kind.vacation
          ∨ kindOf (mkEntryFromForm id f).location = Kind.sick
          ∨ kindOf (mkEntryFromForm id f).location = Kind.onCall) →
        (mkEntryFromForm id f).startTime = ""
          ∧ (mkEntryFromForm id f).endTime = "") := by
  simp only [mkEntryFromForm]
  refine ⟨?_, ?_, ?_⟩
  · intro h
    by_cases hb : normLoc f.location = "bereitschaft" ∧ f.hasDeployments = true
    · exact ⟨kindOf_eq_onCall.mpr hb.1, hb.2⟩
    · rw [if_neg hb] at h
      exact absurd rfl h
  · intro h
    by_cases hk : normLoc f.location = "krank"
    · exact kindOf_eq_sick.mpr hk
    · rw [if_neg hk] at h
      exact absurd rfl h
  · intro hk
    have hs : isSpecialLoc f.location := by
      rcases hk with h | h | h
      · exact Or.inl (kindOf_eq_vacation.mp h)
      · exact Or.inr (Or.inl (kindOf_eq_sick.mp h))
      · exact Or.inr (Or.inr (kindOf_eq_onCall.mp h))
    exact ⟨by rw [if_pos hs], by rw [if_pos hs]⟩

/-- Claim C9: every entry produced by a successful add or update has
`deployments` present only when its kind is OnCall and the deployments
checkbox was set, `isChildSick` present only when its kind is Sick, and
empty start and end times whenever its kind is Vacation, Sick or
OnCall. -/
theorem claim_C9 (id : String) (f : EntryForm) (es l : List Entry)
    (h : handleSubmit id f es = .ok l ∨ handleSaveChanges f es = .ok l)
    (e : Entry) (he : e ∈ l) (hnew : e ∉ es) :
    (e.deployments ≠ none →
        kindOf e.location = Kind.onCall ∧ f.hasDeployments = true)
    ∧ (e.isChildSick ≠ none → kindOf e.location = Kind.sick)
    ∧ ((kindOf e.location = Kind.vacation ∨ kindOf e.location = Kind.sick
          ∨ kindOf e.location = Kind.onCall) →
        e.startTime = "" ∧ e.endTime = "") := by
  have hmk : e = mkEntryFromForm id f ∨ e = mkEntryFromForm f.id f := by
    rcases h with h | h
    · rw [handleSubmit_ok h] at he
      rcases List.mem_cons.mp he with h' | h'
      · exact Or.inl h'
      · exact absurd h' hnew
    · rw [handleSaveChanges_ok h] at he
      rcases List.mem_map.mp he with ⟨e', he', heq⟩
      by_cases hid : e'.id = f.id
      · rw [if_pos hid] at heq
        exact Or.inr heq.symm
      · rw [if_neg hid] at heq
        exact absurd (heq ▸ he') hnew
  rcases hmk with rfl | rfl
  · exact mkEntryFromForm_invariant id f
  · exact mkEntryFromForm_invariant f.id f

theorem claim_C9_witness :
    ((mkEntryFromForm "9"
        ⟨"0", "2024-03-04", "Bereitschaft", "", "", false, true,
          [⟨"d1", "X", "22:00", "23:00"⟩]⟩).deployments ≠ none →
      kindOf (mkEntryFromForm "9"
        ⟨"0", "2024-03-04", "Bereitschaft", "", "", false, true,
          [⟨"d1", "X", "22:00", "23:00"⟩]⟩).location = Kind.onCall
        ∧ (⟨"0", "2024-03-04", "Bereitschaft", "", "", false, true,
            [⟨"d1", "X", "22:00", "23:00"⟩]⟩ : EntryForm).hasDeployments = true)
    ∧ ((mkEntryFromForm "9"
        ⟨"0", "2024-03-04", "Bereitschaft", "", "", false, true,
          [⟨"d1", "X", "22:00", "23:00"⟩]⟩).isChildSick ≠ none →
      kindOf (mkEntryFromForm "9"
        ⟨"0", "2024-03-04", "Bereitschaft", "", "", false, true,
          [⟨"d1", "X", "22:00", "23:00"⟩]⟩).location = Kind.sick)
    ∧ ((kindOf (mkEntryFromForm "9"
          ⟨"0", "2024-03-04", "Bereitschaft", "", "", false, true,
            [⟨"d1", "X", "22:00", "23:00"⟩]⟩).location = Kind.vacation
        ∨ kindOf (mkEntryFromForm "9"
          ⟨"0", "2024-03-04", "Bereitschaft", "", "", false, true,
            [⟨"d1", "X", "22:00", "23:00"⟩]⟩).location = Kind.sick
        ∨ kindOf (mkEntryFromForm "9"
          ⟨"0", "2024-03-04", "Bereitschaft", "", "", false, true,
            [⟨"d1", "X", "22:00", "23:00"⟩]⟩).location = Kind.onCall) →
      (mkEntryFromForm "9"
        ⟨"0", "2024-03-04", "Bereitschaft", "", "", false, true,
          [⟨"d1", "X", "22:00", "23:00"⟩]⟩).startTime = ""
        ∧ (mkEntryFromForm "9"
          ⟨"0", "2024-03-04", "Bereitschaft", "", "", false, true,
            [⟨"d1", "X", "22:00", "23:00"⟩]⟩).endTime = "") :=
  claim_C9 "9"
    ⟨"0", "2024-03-04", "Bereitschaft", "", "", false, true,
      [⟨"d1", "X", "22:00", "23:00"⟩]⟩ []
    [mkEntryFromForm "9"
      ⟨"0", "2024-03-04", "Bereitschaft", "", "", false, true,
        [⟨"d1", "X", "22:00", "23:00"⟩]⟩]
    (Or.inl rfl)
    (mkEntryFromForm "9"
      ⟨"0", "2024-03-04", "Bereitschaft", "", "", false, true,
        [⟨"d1", "X", "22:00", "23:00"⟩]⟩)
    (List.mem_cons_self _ _)
    (List.not_mem_nil _)

/-! ### Claim C8: the import contract -/

theorem jTruthy_of_getField {data : JValue} {k : String} {v : JValue}
    (h : jGetField data k = some v) : jTruthy data = true := by
  cases data <;> first
    | rfl
    | exact Option.noConfusion h

theorem handleFileSelected_arr {st : AppDoc} {data : JValue} {l : List JValue}
    (hv : jGetField data "entries" = some (.arr l)) :
    handleFileSelected st data =
      { entries := l
        employeeName :=
          match jGetField data "employeeName" with
          | some (.str s) => s
          | _ => ""
        savedLocations :=
          match jGetField data "savedLocations" with
          | some (.arr ls) => ls
          | _ => []
        baseOvertime :=
          match jGetField data "baseOvertime" with
          | some (.num q) => q
          | _ => 0 } := by
  rw [handleFileSelected, if_pos (jTruthy_of_getField hv), hv]

/-- Claim C8: an import is rejected, leaving the whole document
unchanged, unless the parsed data has an `entries` field that is an
array; when it is an array the entries load exactly as given, and
`employeeName`, `savedLocations` and `baseOvertime` each take the
imported value when present with the right type and otherwise default
to `""`, `[]` and `0`. -/
theorem claim_C8 (st : AppDoc) (data : JValue) :
    ((∀ l, jGetField data "entries" ≠ some (.arr l)) →
        handleFileSelected st data = st)
    ∧ (∀ l, jGetField data "entries" = some (.arr l) →
        (handleFileSelected st data).entries = l
        ∧ (∀ s, jGetField data "employeeName" = some (.str s) →
            (handleFileSelected st data).employeeName = s)
        ∧ ((∀ s, jGetField data "employeeName" ≠ some (.str s)) →
            (handleFileSelected st data).employeeName = "")
        ∧ (∀ ls, jGetField data "savedLocations" = some (.arr ls) →
            (handleFileSelected st data).savedLocations = ls)
        ∧ ((∀ ls, jGetField data "savedLocations" ≠ some (.arr ls)) →
            (handleFileSelected st data).savedLocations = [])
        ∧ (∀ q, jGetField data "baseOvertime" = some (.num q) →
            (handleFileSelected st data).baseOvertime = q)
        ∧ ((∀ q, jGetField data "baseOvertime" ≠ some (.num q)) →
            (handleFileSelected st data).baseOvertime = 0)) := by
  constructor
  · intro h
    rw [handleFileSelected]
    by_cases ht : jTruthy data
    · rw [if_pos ht]
      cases hv : jGetField data "entries" with
      | none => rfl
      | some v =>
        cases v with
        | arr l => exact absurd hv (h l)
        | null => rfl
        | bool b => rfl
        | num q => rfl
        | str s2 => rfl
        | obj fs => rfl
    · rw [if_neg ht]
  · intro l hv
    rw [handleFileSelected_arr hv]
    refine ⟨rfl, ?_, ?_, ?_, ?_, ?_, ?_⟩
    · intro s hs
      rw [hs]
    · intro hne
      cases hm : jGetField data "employeeName" with
      | none => rfl
      | some v =>
        cases v with
        | str s2 => exact absurd hm (hne s2)
        | null => rfl
        | bool b => rfl
        | num q => rfl
        | arr a2 => rfl
        | obj fs => rfl
    · intro ls hs
      rw [hs]
    · intro hne
      cases hm : jGetField data "savedLocations" with
      | none => rfl
      | some v =>
        cases v with
        | arr a2 => exact absurd hm (hne a2)
        | null => rfl
        | bool b => rfl
        | num q => rfl
        | str s2 => rfl
        | obj fs => rfl
    · intro q hs
      rw [hs]
    · intro hne
      cases hm : jGetField data "baseOvertime" with
      | none => rfl
      | some v =>
        cases v with
        | num q2 => exact absurd hm (hne q2)
        | null => rfl
        | bool b => rfl
        | str s2 => rfl
        | arr a2 => rfl
        | obj fs => rfl

theorem claim_C8_witness :
    (handleFileSelected ⟨[JValue.null], "old", [JValue.bool true], 7⟩
        (JValue.obj [("entries", JValue.arr [JValue.str "x"]),
          ("employeeName", JValue.num 5)])).entries = [JValue.str "x"]
    ∧ (handleFileSelected ⟨[JValue.null], "old", [JValue.bool true], 7⟩
        (JValue.obj [("entries", JValue.arr [JValue.str "x"]),
          ("employeeName", JValue.num 5)])).employeeName = ""
    ∧ (handleFileSelected ⟨[JValue.null], "old", [JValue.bool true], 7⟩
        (JValue.obj [("entries", JValue.arr [JValue.str "x"]),
          ("employeeName", JValue.num 5)])).savedLocations = []
    ∧ (handleFileSelected ⟨[JValue.null], "old", [JValue.bool true], 7⟩
        (JValue.obj [("entries", JValue.arr [JValue.str "x"]),
          ("employeeName", JValue.num 5)])).baseOvertime = 0
    ∧ handleFileSelected ⟨[JValue.null], "old", [JValue.bool true], 7⟩
        (JValue.str "nope") = ⟨[JValue.null], "old", [JValue.bool true], 7⟩ := by
  have h := claim_C8 ⟨[JValue.null], "old", [JValue.bool true], 7⟩
    (JValue.obj [("entries", JValue.arr [JValue.str "x"]),
      ("employeeName", JValue.num 5)])
  have h2 := (h.2 [JValue.str "x"] rfl)
  refine ⟨h2.1, ?_, ?_, ?_, ?_⟩
  · exact h2.2.2.1 fun s hs => JValue.noConfusion (Option.some.inj hs)
  · exact h2.2.2.2.2.1 fun ls hs => Option.noConfusion hs
  · exact h2.2.2.2.2.2.2 fun q hs => Option.noConfusion hs
  · exact (claim_C8 ⟨[JValue.null], "old", [JValue.bool true], 7⟩
      (JValue.str "nope")).1 fun l hl => Option.noConfusion hl

/-! ### Claim C6: the display sort order -/

/-- The date key an entry sorts under (`getD 0` is only consulted on
entries whose date fails to parse). -/
def dval (e : Entry) : ℤ := (parseDate e.date).getD 0

/-- The claim's reading of the display order: in the sorted output, for
every earlier/later pair, no OnCall entry precedes a non-OnCall entry;
within a partition dates ascend; and within a partition and equal date,
start times ascend lexicographically when both are present. -/
def displayOrderClaim (es : List Entry) : Prop :=
  (sortedEntries es).Pairwise fun a b =>
    (¬ (isOnCallE a ∧ ¬ isOnCallE b))
    ∧ ((isOnCallE a ↔ isOnCallE b) → dval a ≤ dval b)
    ∧ ((isOnCallE a ↔ isOnCallE b) → a.date = b.date →
        a.startTime ≠ "" → b.startTime ≠ "" →
        strLt b.startTime a.startTime = false)

theorem lexLt_asymm : ∀ {l1 l2 : List Char},
    lexLt l1 l2 = true → lexLt l2 l1 = false := by
  intro l1
  induction l1 with
  | nil =>
    intro l2 h
    cases l2 with
    | nil => exact absurd h (by decide)
    | cons b bs => rfl
  | cons a as ih =>
    intro l2 h
    cases l2 with
    | nil => exact absurd h (by simp [lexLt])
    | cons b bs =>
      rw [lexLt] at h ⊢
      by_cases hab : a < b
      · rw [if_neg (lt_asymm hab), if_pos hab]
      · rw [if_neg hab] at h
        by_cases hba : b < a
        · rw [if_pos hba] at h
          exact absurd h (by decide)
        · rw [if_neg hba] at h
          rw [if_neg hba, if_neg hab]
          exact ih h

theorem strLt_asymm {a b : String} (h : strLt a b = true) :
    strLt b a = false := lexLt_asymm h

theorem dateTimeCmp_some {a b : Entry} {x y : ℤ}
    (pa : parseDate a.date = some x) (pb : parseDate b.date = some y) :
    dateTimeCmp a b =
      if x ≠ y then x - y
      else if a.startTime ≠ "" ∧ b.startTime ≠ "" then
        strCmpInt a.startTime b.startTime
      else 0 := by
  rw [dateTimeCmp, pa, pb]

theorem dateTimeCmp_total (a b : Entry) :
    dateTimeCmp a b ≤ 0 ∨ dateTimeCmp b a ≤ 0 := by
  cases pa : parseDate a.date with
  | none =>
    rw [dateTimeCmp, pa]
    cases pb : parseDate b.date <;> exact Or.inl (le_refl 0)
  | some x =>
    cases pb : parseDate b.date with
    | none =>
      rw [dateTimeCmp, pa, pb]
      exact Or.inl (le_refl 0)
    | some y =>
      rw [dateTimeCmp_some pa pb, dateTimeCmp_some pb pa]
      by_cases hxy : x = y
      · subst hxy
        rw [if_neg (fun h : x ≠ x => h rfl), if_neg (fun h : x ≠ x => h rfl)]
        by_cases hts : a.startTime ≠ "" ∧ b.startTime ≠ ""
        · rw [if_pos hts, if_pos ⟨hts.2, hts.1⟩, strCmpInt, strCmpInt]
          by_cases h1 : strLt a.startTime b.startTime = true
          · refine Or.inl ?_
            rw [if_pos h1]
            norm_num
          · by_cases h2 : strLt b.startTime a.startTime = true
            · refine Or.inr ?_
              rw [if_pos h2]
              norm_num
            · refine Or.inl ?_
              rw [if_neg h1, if_neg h2]
        · refine Or.inl ?_
          rw [if_neg hts]
      · rcases le_total x y with hle | hle
        · refine Or.inl ?_
          rw [if_pos hxy]
          omega
        · refine Or.inr ?_
          rw [if_pos (fun h : y = x => hxy h.symm)]
          omega

theorem entryCmp_total (a b : Entry) : entryCmp a b ≤ 0 ∨ entryCmp b a ≤ 0 := by
  rw [entryCmp, entryCmp]
  by_cases ha : isOnCallE a <;> by_cases hb : isOnCallE b
  · rw [if_neg (fun h => h.2 hb), if_neg (fun h => h.1 ha),
      if_neg (fun h => h.2 ha), if_neg (fun h => h.1 hb)]
    exact dateTimeCmp_total a b
  · refine Or.inr ?_
    rw [if_neg (fun h => hb h.1), if_pos ⟨hb, ha⟩]
    norm_num
  · refine Or.inl ?_
    rw [if_neg (fun h => ha h.1), if_pos ⟨ha, hb⟩]
    norm_num
  · rw [if_neg (fun h => ha h.1), if_neg (fun h => hb h.2),
      if_neg (fun h => hb h.1), if_neg (fun h => ha h.2)]
    exact dateTimeCmp_total a b

theorem leE_total (a b : Entry) : leE a b ∨ leE b a := entryCmp_total a b

theorem chain'_orderedInsert {α : Type} (r : α → α → Prop) [DecidableRel r]
    (tot : ∀ x y, r x y ∨ r y x) (a : α) :
    ∀ l : List α, l.Chain' r → (List.orderedInsert r a l).Chain' r := by
  intro l
  induction l with
  | nil =>
    intro _
    simp [List.orderedInsert]
  | cons b t ih =>
    intro hc
    rw [List.orderedInsert]
    by_cases hr : r a b
    · rw [if_pos hr]
      exact List.chain'_cons.mpr ⟨hr, hc⟩
    · rw [if_neg hr]
      have hba : r b a := (tot a b).resolve_left hr
      cases t with
      | nil =>
        rw [List.orderedInsert]
        exact List.chain'_cons.mpr ⟨hba, List.chain'_singleton a⟩
      | cons c t' =>
        rw [List.orderedInsert]
        by_cases hac : r a c
        · rw [if_pos hac]
          exact List.chain'_cons.mpr ⟨hba,
            List.chain'_cons.mpr ⟨hac, hc.tail⟩⟩
        · rw [if_neg hac]
          have hbc : r b c := (List.chain'_cons.mp hc).1
          have hrec := ih hc.tail
          rw [List.orderedInsert, if_neg hac] at hrec
          exact List.chain'_cons.mpr ⟨hbc, hrec⟩

theorem chain'_insertionSort {α : Type} (r : α → α → Prop) [DecidableRel r]
    (tot : ∀ x y, r x y ∨ r y x) :
    ∀ l : List α, (l.insertionSort r).Chain' r := by
  intro l
  induction l with
  | nil => exact List.chain'_nil
  | cons a t ih =>
    rw [List.insertionSort]
    exact chain'_orderedInsert r tot a _ ih

theorem chain'_to_pairwise {α : Type} {S R : α → α → Prop} :
    ∀ l : List α, (∀ x ∈ l, ∀ y ∈ l, S x y → R x y)
      → (∀ x y z, R x y → R y z → R x z)
      → l.Chain' S → l.Pairwise R := by
  intro l
  induction l with
  | nil => intro _ _ _; exact List.Pairwise.nil
  | cons a t ih =>
    intro hSR htrans hc
    have hpt : t.Pairwise R :=
      ih (fun x hx y hy => hSR x (List.mem_cons_of_mem _ hx) y
        (List.mem_cons_of_mem _ hy)) htrans hc.tail
    refine List.Pairwise.cons ?_ hpt
    intro y hy
    cases t with
    | nil => cases hy
    | cons b t' =>
      have hab : S a b := (List.chain'_cons.mp hc).1
      have hRab : R a b := hSR a (List.mem_cons_self a _) b
        (List.mem_cons_of_mem _ (List.mem_cons_self b _)) hab
      rcases List.mem_cons.mp hy with rfl | hy'
      · exact hRab
      · exact htrans _ _ _ hRab ((List.pairwise_cons.mp hpt).1 y hy')

theorem leE_imp_R {a b : Entry}
    (hva : (parseDate a.date).isSome = true)
    (hvb : (parseDate b.date).isSome = true) (h : leE a b) :
    (isOnCallE a → isOnCallE b)
    ∧ ((isOnCallE a ↔ isOnCallE b) → dval a ≤ dval b) := by
  obtain ⟨x, pa⟩ := Option.isSome_iff_exists.mp hva
  obtain ⟨y, pb⟩ := Option.isSome_iff_exists.mp hvb
  rw [leE, entryCmp] at h
  constructor
  · intro ha
    by_contra hb
    rw [if_pos ⟨ha, hb⟩] at h
    norm_num at h
  · intro hiff
    have hA1 : ¬ (isOnCallE a ∧ ¬ isOnCallE b) := fun hc => hc.2 (hiff.mp hc.1)
    have hA2 : ¬ (¬ isOnCallE a ∧ isOnCallE b) := fun hc => hc.1 (hiff.mpr hc.2)
    rw [if_neg hA1, if_neg hA2, dateTimeCmp_some pa pb] at h
    rw [dval, dval, pa, pb, Option.getD_some, Option.getD_some]
    by_cases hxy : x = y
    · exact le_of_eq hxy
    · rw [if_pos hxy] at h
      omega

theorem relR_trans : ∀ x y z : Entry,
    ((isOnCallE x → isOnCallE y) ∧ ((isOnCallE x ↔ isOnCallE y) → dval x ≤ dval y)) →
    ((isOnCallE y → isOnCallE z) ∧ ((isOnCallE y ↔ isOnCallE z) → dval y ≤ dval z)) →
    ((isOnCallE x → isOnCallE z) ∧ ((isOnCallE x ↔ isOnCallE z) → dval x ≤ dval z)) := by
  intro x y z hxy hyz
  constructor
  · exact fun h => hyz.1 (hxy.1 h)
  · intro hiff
    by_cases hx : isOnCallE x
    · have hy : isOnCallE y := hxy.1 hx
      have hz : isOnCallE z := hyz.1 hy
      exact le_trans (hxy.2 ⟨fun _ => hy, fun _ => hx⟩)
        (hyz.2 ⟨fun _ => hz, fun _ => hy⟩)
    · have hz : ¬ isOnCallE z := fun hz => hx (hiff.mpr hz)
      have hy : ¬ isOnCallE y := fun hy => hz (hyz.1 hy)
      exact le_trans (hxy.2 ⟨fun h => absurd h hx, fun h => absurd h hy⟩)
        (hyz.2 ⟨fun h => absurd h hy, fun h => absurd h hz⟩)

theorem leE_imp_T {a b : Entry} (h : leE a b) :
    (isOnCallE a ↔ isOnCallE b) → parseDate a.date = parseDate b.date →
    (parseDate a.date).isSome = true → a.startTime ≠ "" → b.startTime ≠ "" →
    strLt b.startTime a.startTime = false := by
  intro hiff hdeq hsome hta htb
  obtain ⟨x, pa⟩ := Option.isSome_iff_exists.mp hsome
  have pb : parseDate b.date = some x := hdeq ▸ pa
  have hA1 : ¬ (isOnCallE a ∧ ¬ isOnCallE b) := fun hc => hc.2 (hiff.mp hc.1)
  have hA2 : ¬ (¬ isOnCallE a ∧ isOnCallE b) := fun hc => hc.1 (hiff.mpr hc.2)
  rw [leE, entryCmp, if_neg hA1, if_neg hA2, dateTimeCmp_some pa pb,
    if_neg (fun hc : x ≠ x => hc rfl), if_pos ⟨hta, htb⟩, strCmpInt] at h
  by_cases h1 : strLt a.startTime b.startTime = true
  · exact strLt_asymm h1
  · rw [if_neg h1] at h
    by_cases h2 : strLt b.startTime a.startTime = true
    · rw [if_pos h2] at h
      norm_num at h
    · cases hb2 : strLt b.startTime a.startTime with
      | false => rfl
      | true => exact absurd hb2 h2

/-- Counterexample to claim C6: with entries lacking a start time in
between, the comparator is intransitive, and the displayed order can
place a `09:00` Regular entry before an `08:00` Regular entry of the
same date: the claim's global ascending-startTime property fails. -/
theorem claim_C6_cex :
    ¬ displayOrderClaim
      [⟨"1", "2024-03-04", "Büro", "09:00", "17:30", none, none⟩,
       ⟨"2", "2024-03-04", "Urlaub", "", "", none, none⟩,
       ⟨"3", "2024-03-04", "Urlaub", "", "", none, none⟩,
       ⟨"4", "2024-03-04", "Büro", "08:00", "12:00", none, none⟩] := by
  intro h
  rw [displayOrderClaim] at h
  rw [show sortedEntries
      [⟨"1", "2024-03-04", "Büro", "09:00", "17:30", none, none⟩,
       ⟨"2", "2024-03-04", "Urlaub", "", "", none, none⟩,
       ⟨"3", "2024-03-04", "Urlaub", "", "", none, none⟩,
       ⟨"4", "2024-03-04", "Büro", "08:00", "12:00", none, none⟩] =
      [⟨"1", "2024-03-04", "Büro", "09:00", "17:30", none, none⟩,
       ⟨"2", "2024-03-04", "Urlaub", "", "", none, none⟩,
       ⟨"3", "2024-03-04", "Urlaub", "", "", none, none⟩,
       ⟨"4", "2024-03-04", "Büro", "08:00", "12:00", none, none⟩]
    from by decide] at h
  have h14 := (List.pairwise_cons.mp h).1
    ⟨"4", "2024-03-04", "Büro", "08:00", "12:00", none, none⟩ (by decide)
  have hviol := h14.2.2 (by decide) rfl (by decide) (by decide)
  exact absurd hviol (by decide)

/-- Claim C6 as amended: the displayed list is a permutation of the
collection; no OnCall entry ever precedes a non-OnCall entry; within a
partition dates ascend (all dates assumed well-formed `YYYY-MM-DD`);
and start times ascend between CONSECUTIVE entries of equal partition
and date when both are present — the startTime guarantee does not
extend across entries lacking a start time. -/
theorem claim_C6_amended (es : List Entry)
    (hd : ∀ e ∈ es, (parseDate e.date).isSome = true) :
    (sortedEntries es).Perm es
    ∧ (sortedEntries es).Pairwise (fun a b =>
        (isOnCallE a → isOnCallE b)
        ∧ ((isOnCallE a ↔ isOnCallE b) → dval a ≤ dval b))
    ∧ (sortedEntries es).Chain' (fun a b =>
        (isOnCallE a ↔ isOnCallE b) → parseDate a.date = parseDate b.date →
        (parseDate a.date).isSome = true → a.startTime ≠ "" →
        b.startTime ≠ "" → strLt b.startTime a.startTime = false) := by
  have hperm : (sortedEntries es).Perm es := List.perm_insertionSort leE es
  have hchain : (sortedEntries es).Chain' leE :=
    chain'_insertionSort leE leE_total es
  refine ⟨hperm, ?_, ?_⟩
  · refine chain'_to_pairwise (sortedEntries es) ?_ relR_trans hchain
    intro x hx y hy hS
    exact leE_imp_R (hd x ((List.mem_insertionSort leE).mp hx))
      (hd y ((List.mem_insertionSort leE).mp hy)) hS
  · exact hchain.imp fun a b h => leE_imp_T h

theorem claim_C6_witness :
    (sortedEntries
      [⟨"1", "2024-03-04", "Büro", "09:00", "17:30", none, none⟩,
       ⟨"2", "2024-03-05", "Urlaub", "", "", none, none⟩]).Perm
      [⟨"1", "2024-03-04", "Büro", "09:00", "17:30", none, none⟩,
       ⟨"2", "2024-03-05", "Urlaub", "", "", none, none⟩] :=
  (claim_C6_amended
    [⟨"1", "2024-03-04", "Büro", "09:00", "17:30", none, none⟩,
     ⟨"2", "2024-03-05", "Urlaub", "", "", none, none⟩] (by decide)).1

end Wochenzettel
